import Mathlib

/-!
# ADIOS2: DAOS engine naming and parameter resolution, MHS tiered reader

A shallow embedding of

* `source/adios2/engine/daos/DaosEngine.cpp` (the file-naming functions and
  `DaosEngine::ParseParams`), and
* `source/adios2/engine/mhs/MhsReader.tcc` (`GetSyncCommon`, `GetDeferredCommon`),
* `include/core/Engine.h` (the declarations of `CheckTransportIndex` and `Close`),

followed by theorems about them.  `std::string` is embedded as `String`, a
`std::map<std::string, std::string>` that is only assigned to and searched as
its lookup function, exceptions as `Except`, and a null pointer as `none`.
-/

set_option autoImplicit false

/-! ## Helpers that live outside the translated files -/

/-- Modelled from the spec: `PathSeparator` of `ADIOSTypes.h` (not part of the
translated sources); the spec writes the paths `run1/md.0`, so the separator
is the forward slash. -/
def PathSeparator : Char := '/'

namespace helper

/-- Modelled from the spec: `helper::RemoveTrailingSlash` (declared in
`adiosFunctions.h`, not part of the translated sources).  The spec says that
the naming functions "first strip a trailing path separator from the root":
a name that ends in the separator loses that last character, every other
name is returned as it is. -/
def RemoveTrailingSlash (name : String) : String :=
  if name.data.getLast? = some PathSeparator then ⟨name.data.dropLast⟩ else name

/-- Modelled from the spec: `helper::LowerCase` (declared in
`adiosFunctions.h`, not part of the translated sources): "keys and stored
values are lower-cased", character by character, which is also what the
`std::transform(..., ::tolower)` calls of `ParseParams` do. -/
def LowerCase (input : String) : String :=
  ⟨input.data.map Char.toLower⟩

end helper

/-- `std::to_string` on a `size_t`: the decimal digits of the number. -/
def to_string (n : Nat) : String := Nat.repr n

/-! ## DaosEngine: file naming (`DaosEngine.cpp`, lines 50 to 130) -/

namespace DaosEngine

/-- `DaosEngine::GetBPMetadataFileName`. -/
def GetBPMetadataFileName (name : String) : String :=
  let bpName := helper.RemoveTrailingSlash name
  let index : Nat := 0 -- global metadata file is generated by rank 0
  bpName ++ String.singleton PathSeparator ++ "md." ++ to_string index

/-- `DaosEngine::GetBPMetaMetadataFileName`. -/
def GetBPMetaMetadataFileName (name : String) : String :=
  let bpName := helper.RemoveTrailingSlash name
  let index : Nat := 0 -- global metadata file is generated by rank 0
  bpName ++ String.singleton PathSeparator ++ "mmd." ++ to_string index

/-- `DaosEngine::GetBPMetadataIndexFileName`. -/
def GetBPMetadataIndexFileName (name : String) : String :=
  let bpName := helper.RemoveTrailingSlash name
  bpName ++ String.singleton PathSeparator ++ "md.idx"

/-- `DaosEngine::GetBPVersionFileName`. -/
def GetBPVersionFileName (name : String) : String :=
  let bpName := helper.RemoveTrailingSlash name
  bpName ++ String.singleton PathSeparator ++ ".bpversion"

/-- `DaosEngine::GetBPSubStreamName`; `isReader` is accepted and never read,
as in the source. -/
def GetBPSubStreamName (name : String) (id : Nat) (hasSubFiles : Bool)
    (_isReader : Bool) : String :=
  if !hasSubFiles then
    name
  else
    let bpName := helper.RemoveTrailingSlash name
    bpName ++ String.singleton PathSeparator ++ "data." ++ to_string id

/-- `DaosEngine::GetBPMetadataFileNames`. -/
def GetBPMetadataFileNames (names : List String) : List String :=
  names.map GetBPMetadataFileName

/-- `DaosEngine::GetBPMetaMetadataFileNames`. -/
def GetBPMetaMetadataFileNames (names : List String) : List String :=
  names.map GetBPMetaMetadataFileName

/-- `DaosEngine::GetBPMetadataIndexFileNames`. -/
def GetBPMetadataIndexFileNames (names : List String) : List String :=
  names.map GetBPMetadataIndexFileName

/-- `DaosEngine::GetBPVersionFileNames`. -/
def GetBPVersionFileNames (names : List String) : List String :=
  names.map GetBPVersionFileName

end DaosEngine

/-! ## DaosEngine: parameter resolution (`DaosEngine.cpp`, lines 145 to 371) -/

deriving instance DecidableEq for Except

/-- The exceptions `ParseParams` can leave with, each with its message. -/
inductive Exn where
  | invalid_argument (message : String)
  | out_of_range (message : String)
  deriving DecidableEq, Repr

/-- A C `float`, kept as its 32-bit IEEE pattern; it is only stored and
compared with zero, never computed with. -/
structure CFloat where
  bits : Nat
  deriving DecidableEq, Repr

/-- The enumerators of `BufferVType` that `ParseParams` names. -/
inductive BufferVType where
  | MallocVType
  | ChunkVType
  deriving DecidableEq, Repr

/-- The enumerators of `AggregationType` that `ParseParams` names. -/
inductive AggregationType where
  | EveryoneWrites
  | EveryoneWritesSerial
  | TwoLevelShm
  deriving DecidableEq, Repr

/-- The enumerators of `AsyncWrite` that `ParseParams` names. -/
inductive AsyncWrite where
  | Sync
  | Naive
  | Guided
  deriving DecidableEq, Repr

/-- The value of one field of `struct DAOSParams`, by the C type of the
field: `bool`, `float`, `size_t`, `int`, `unsigned int`, `std::string`. -/
inductive ParamValue where
  | bool (b : Bool)
  | float (f : CFloat)
  | size (n : Nat)
  | int (i : Int)
  | uint (n : Nat)
  | string (s : String)
  deriving DecidableEq, Repr

/-- One line `MACRO(Param, Type, Typedecl, Default)` of the parameter table:
the constructor names the closure `lf_Set##Type##Parameter` that `Type` selects,
`Param` is the field name, which `#Param` also makes the key, and `Default`
has the type of the third argument of that closure. -/
inductive ParamDecl where
  | BoolParameter (Param : String) (Default : Bool)
  | FloatParameter (Param : String) (Default : CFloat)
  | SizeBytesParameter (Param : String) (Default : Nat)
  | IntParameter (Param : String) (Default : Int)
  | UIntParameter (Param : String) (Default : Nat)
  | StringParameter (Param : String) (Default : String)
  | BufferVTypeParameter (Param : String) (Default : Int)
  | AggregationTypeParameter (Param : String) (Default : Int)
  | AsyncWriteParameter (Param : String) (Default : Int)
  deriving DecidableEq, Repr

/-- The field name of a table line. -/
def ParamDecl.Param : ParamDecl → String
  | .BoolParameter p _ => p
  | .FloatParameter p _ => p
  | .SizeBytesParameter p _ => p
  | .IntParameter p _ => p
  | .UIntParameter p _ => p
  | .StringParameter p _ => p
  | .BufferVTypeParameter p _ => p
  | .AggregationTypeParameter p _ => p
  | .AsyncWriteParameter p _ => p

/-- The default of a table line, as a field value. -/
def ParamDecl.Default : ParamDecl → ParamValue
  | .BoolParameter _ d => .bool d
  | .FloatParameter _ d => .float d
  | .SizeBytesParameter _ d => .size d
  | .IntParameter _ d => .int d
  | .UIntParameter _ d => .uint d
  | .StringParameter _ d => .string d
  | .BufferVTypeParameter _ d => .int d
  | .AggregationTypeParameter _ d => .int d
  | .AsyncWriteParameter _ d => .int d

/-- What `DaosEngine.cpp` takes from `DaosEngine.h` and from the helper
library, none of which is part of the translated sources, kept as
parameters: the parameter table `DAOS_FOREACH_PARAMETER_TYPE_4ARGS`, the
`(int)` value of each enumerator, and the two conversion helpers (each takes
the text and a hint for its error message). -/
structure Decls where
  DAOS_FOREACH_PARAMETER_TYPE_4ARGS : List ParamDecl
  castBufferVType : BufferVType → Int
  castAggregationType : AggregationType → Int
  castAsyncWrite : AsyncWrite → Int
  StringToFloat : String → String → Except Exn CFloat
  StringToByteUnits : String → String → Except Exn Nat

/-- `struct DAOSParams`: field name to field value. -/
abbrev DAOSParams := String → ParamValue

/-- Assignment `Params.Param = v`. -/
def DAOSParams.set (Params : DAOSParams) (Param : String) (v : ParamValue) : DAOSParams :=
  fun q => if q = Param then v else Params q

/-- `adios2::Params`, a `std::map<std::string, std::string>`, seen through
`find`: a key is mapped to its stored value, or to `none` for `end()`. -/
abbrev StrMap := String → Option String

/-- The empty map. -/
def StrMap.empty : StrMap := fun _ => none

/-- Element assignment `m[key] = value`. -/
def StrMap.assign (m : StrMap) (key value : String) : StrMap :=
  fun q => if q = key then some value else m q

/-- C `isspace` in the default locale. -/
def isspace (c : Char) : Bool :=
  c = ' ' || c = '\t' || c = '\n' || c = Char.ofNat 11 || c = Char.ofNat 12 || c = '\r'

/-- The subject sequence of `strtol` and `strtoul` in base 10: white space is
skipped, one sign is accepted, then the longest run of digits is taken and
what follows is ignored.  Gives the sign (`true` for minus) and the magnitude,
or `none` when there is no digit to convert. -/
def strtoSubject (s : List Char) : Option (Bool × Nat) :=
  let s := s.dropWhile isspace
  let signed : Bool × List Char :=
    match s with
    | '-' :: t => (true, t)
    | '+' :: t => (false, t)
    | _ => (false, s)
  match signed.2.takeWhile Char.isDigit with
  | [] => none
  | ds => some (signed.1, ds.foldl (fun a c => 10 * a + (c.toNat - 48)) 0)

/-- `std::stoi` (32-bit `int`): `invalid_argument` when nothing converts,
`out_of_range` when the number does not fit. -/
def stoi (str : String) : Except Exn Int :=
  match strtoSubject str.data with
  | none => .error (.invalid_argument "stoi")
  | some (neg, n) =>
    let v : Int := if neg then -(n : Int) else (n : Int)
    if v < -2147483648 ∨ 2147483647 < v then .error (.out_of_range "stoi") else .ok v

/-- `std::stoul` (64-bit `unsigned long`): as `strtoul`, a magnitude above
`ULONG_MAX` is `out_of_range`, and a minus sign negates modulo `2^64`. -/
def stoul (str : String) : Except Exn Nat :=
  match strtoSubject str.data with
  | none => .error (.invalid_argument "stoul")
  | some (neg, n) =>
    if 18446744073709551615 < n then .error (.out_of_range "stoul")
    else .ok (if neg then (18446744073709551616 - n) % 18446744073709551616 else n)

namespace DaosEngine

/-- The first loop of `ParseParams`: every entry of `io.m_Parameters`, in the
iteration order of the map, is stored under its lower-cased key with its
lower-cased value. -/
def params_lowercase (m_Parameters : List (String × String)) : StrMap :=
  m_Parameters.foldl
    (fun m p => m.assign (helper.LowerCase p.1) (helper.LowerCase p.2)) StrMap.empty

/-- The closure `lf_SetBoolParameter`: the new value of `parameter`. -/
def lf_SetBoolParameter (params_lowercase : StrMap) (key : String) (Default : Bool) :
    Except Exn Bool :=
  let lkey := helper.LowerCase key
  match params_lowercase lkey with
  | none => .ok Default
  | some stored =>
    let value := helper.LowerCase stored
    if value = "yes" ∨ value = "true" ∨ value = "on" then .ok true
    else if value = "no" ∨ value = "false" ∨ value = "off" then .ok false
    else .error (.invalid_argument ("Unknown BP5 Boolean parameter '" ++ value ++ "'"))

/-- The closure `lf_SetFloatParameter`. -/
def lf_SetFloatParameter (E : Decls) (params_lowercase : StrMap) (key : String)
    (Default : CFloat) : Except Exn CFloat :=
  let lkey := helper.LowerCase key
  match params_lowercase lkey with
  | none => .ok Default
  | some value => E.StringToFloat value (" in Parameter key=" ++ key)

/-- The closure `lf_SetSizeBytesParameter`. -/
def lf_SetSizeBytesParameter (E : Decls) (params_lowercase : StrMap) (key : String)
    (Default : Nat) : Except Exn Nat :=
  let lkey := helper.LowerCase key
  match params_lowercase lkey with
  | none => .ok Default
  | some value => E.StringToByteUnits value ("for Parameter key=" ++ key ++ "in call to Open")

/-- The closure `lf_SetIntParameter` (its `bool` result is dropped by the
macro that calls it). -/
def lf_SetIntParameter (params_lowercase : StrMap) (key : String) (Default : Int) :
    Except Exn Int :=
  let lkey := helper.LowerCase key
  match params_lowercase lkey with
  | none => .ok Default
  | some stored => stoi stored

/-- The closure `lf_SetUIntParameter`. -/
def lf_SetUIntParameter (params_lowercase : StrMap) (key : String) (Default : Nat) :
    Except Exn Nat :=
  let lkey := helper.LowerCase key
  match params_lowercase lkey with
  | none => .ok Default
  | some stored =>
    match stoul stored with
    | .error e => .error e
    | .ok result =>
      -- std::numeric_limits<unsigned>::max()
      let result := if 4294967295 < result then 4294967295 else result
      .ok (result % 4294967296)

/-- The closure `lf_SetStringParameter`. -/
def lf_SetStringParameter (params_lowercase : StrMap) (key : String) (Default : String) :
    Except Exn String :=
  let lkey := helper.LowerCase key
  match params_lowercase lkey with
  | none => .ok Default
  | some stored => .ok stored

/-- The closure `lf_SetBufferVTypeParameter`. -/
def lf_SetBufferVTypeParameter (E : Decls) (params_lowercase : StrMap) (key : String)
    (Default : Int) : Except Exn Int :=
  let lkey := helper.LowerCase key
  match params_lowercase lkey with
  | none => .ok Default
  | some stored =>
    let value := helper.LowerCase stored
    if value = "malloc" then .ok (E.castBufferVType .MallocVType)
    else if value = "chunk" then .ok (E.castBufferVType .ChunkVType)
    else .error (.invalid_argument
      ("Unknown BP5 BufferVType parameter \"" ++ value ++
        "\" (must be \"malloc\" or \"chunk\""))

/-- The closure `lf_SetAggregationTypeParameter`. -/
def lf_SetAggregationTypeParameter (E : Decls) (params_lowercase : StrMap) (key : String)
    (Default : Int) : Except Exn Int :=
  let lkey := helper.LowerCase key
  match params_lowercase lkey with
  | none => .ok Default
  | some stored =>
    let value := helper.LowerCase stored
    if value = "everyonewrites" ∨ value = "auto" then
      .ok (E.castAggregationType .EveryoneWrites)
    else if value = "everyonewritesserial" then
      .ok (E.castAggregationType .EveryoneWritesSerial)
    else if value = "twolevelshm" then
      .ok (E.castAggregationType .TwoLevelShm)
    else .error (.invalid_argument
      ("Unknown BP5 AggregationType parameter \"" ++ value ++
        "\" (must be \"auto\", \"everyonewrites\" or " ++ "\"twolevelshm\""))

/-- The closure `lf_SetAsyncWriteParameter`. -/
def lf_SetAsyncWriteParameter (E : Decls) (params_lowercase : StrMap) (key : String)
    (Default : Int) : Except Exn Int :=
  let lkey := helper.LowerCase key
  match params_lowercase lkey with
  | none => .ok Default
  | some stored =>
    let value := helper.LowerCase stored
    if value = "guided" ∨ value = "auto" ∨ value = "on" ∨ value = "true" then
      .ok (E.castAsyncWrite .Guided)
    else if value = "sync" ∨ value = "off" ∨ value = "false" then
      .ok (E.castAsyncWrite .Sync)
    else if value = "naive" then
      .ok (E.castAsyncWrite .Naive)
    else .error (.invalid_argument
      ("Unknown BP5 AsyncWriteMode parameter \"" ++ value ++
        "\" (must be \"auto\", \"sync\", \"naive\", " ++ "\"throttled\" " ++
        "or \"guided\""))

/-- The call `lf_Set##Type##Parameter(#Param, Params.Param, Default)` that
both `get_params` and `print_params` expand to for one table line: the value
assigned to `Params.Param`, or the exception thrown. -/
def setParameter (E : Decls) (params_lowercase : StrMap) : ParamDecl → Except Exn ParamValue
  | .BoolParameter p d => (lf_SetBoolParameter params_lowercase p d).map ParamValue.bool
  | .FloatParameter p d => (lf_SetFloatParameter E params_lowercase p d).map ParamValue.float
  | .SizeBytesParameter p d => (lf_SetSizeBytesParameter E params_lowercase p d).map ParamValue.size
  | .IntParameter p d => (lf_SetIntParameter params_lowercase p d).map ParamValue.int
  | .UIntParameter p d => (lf_SetUIntParameter params_lowercase p d).map ParamValue.uint
  | .StringParameter p d => (lf_SetStringParameter params_lowercase p d).map ParamValue.string
  | .BufferVTypeParameter p d => (lf_SetBufferVTypeParameter E params_lowercase p d).map ParamValue.int
  | .AggregationTypeParameter p d =>
      (lf_SetAggregationTypeParameter E params_lowercase p d).map ParamValue.int
  | .AsyncWriteParameter p d => (lf_SetAsyncWriteParameter E params_lowercase p d).map ParamValue.int

/-- `DAOS_FOREACH_PARAMETER_TYPE_4ARGS(get_params)` over the lines of the
table, in order; an exception ends the pass. -/
def get_params (E : Decls) (params_lowercase : StrMap) :
    List ParamDecl → DAOSParams → Except Exn DAOSParams
  | [], Params => .ok Params
  | d :: rest, Params =>
    match setParameter E params_lowercase d with
    | .error e => .error e
    | .ok v => get_params E params_lowercase rest (Params.set d.Param v)

/-- What `ParseParams` writes to `std::cout`, one item per line. -/
inductive OutLine where
  | header (m_EngineType : String)
  | param (Param : String) (value : ParamValue) (Default : ParamValue)
  | footer
  deriving DecidableEq, Repr

/-- `DAOS_FOREACH_PARAMETER_TYPE_4ARGS(print_params)`: every field is set
once more, and printed when `!m_RankMPI`. -/
def print_params (E : Decls) (params_lowercase : StrMap) (m_RankMPI : Int) :
    List ParamDecl → DAOSParams → List OutLine → Except Exn (DAOSParams × List OutLine)
  | [], Params, out => .ok (Params, out)
  | d :: rest, Params, out =>
    match setParameter E params_lowercase d with
    | .error e => .error e
    | .ok v =>
      let Params := Params.set d.Param v
      let out := if m_RankMPI = 0 then out ++ [OutLine.param d.Param (Params d.Param) d.Default]
                 else out
      print_params E params_lowercase m_RankMPI rest Params out

/-- The test `Params.verbose > 0`, by the C type the table gives the field
`verbose` (for a `float`: a positive number or infinity, not a NaN). -/
def verbosePositive (Params : DAOSParams) : Bool :=
  match Params "verbose" with
  | .bool b => b
  | .float f => decide (0 < f.bits ∧ f.bits ≤ 2139095040)
  | .size n => decide (0 < n)
  | .int i => decide (0 < i)
  | .uint n => decide (0 < n)
  | .string _ => false

/-- `DaosEngine::ParseParams(io, Params)`: `m_Parameters` and `m_EngineType`
are the members of `io` it reads, `m_RankMPI` the rank of the engine, `Params`
the record passed by reference.  The result is the record as it is on return
with the lines written to `std::cout`, or the exception thrown. -/
def ParseParams (E : Decls) (m_RankMPI : Int) (m_EngineType : String)
    (m_Parameters : List (String × String)) (Params : DAOSParams) :
    Except Exn (DAOSParams × List OutLine) :=
  let lowered := params_lowercase m_Parameters
  match get_params E lowered E.DAOS_FOREACH_PARAMETER_TYPE_4ARGS Params with
  | .error e => .error e
  | .ok Params =>
    if verbosePositive Params && decide (m_RankMPI = 0) then
      match print_params E lowered m_RankMPI E.DAOS_FOREACH_PARAMETER_TYPE_4ARGS Params
          [OutLine.header m_EngineType] with
      | .error e => .error e
      | .ok (Params, out) => .ok (Params, out ++ [OutLine.footer])
    else
      .ok (Params, [])

end DaosEngine

/-- A small instance of the declarations, to run `ParseParams` on concrete
configurations: nine fields, one of each kind, the enumerators numbered in
the order listed above, and conversion helpers that read a plain decimal
number. -/
def sampleDecls : Decls where
  DAOS_FOREACH_PARAMETER_TYPE_4ARGS :=
    [ .FloatParameter "OpenTimeoutSecs" ⟨0⟩,
      .BoolParameter "DirectIO" false,
      .StringParameter "BurstBufferPath" "",
      .IntParameter "verbose" 0,
      .UIntParameter "NumAggregators" 0,
      .AggregationTypeParameter "AggregationType" 2,
      .AsyncWriteParameter "AsyncWrite" 0,
      .SizeBytesParameter "InitialBufferSize" 16777216,
      .BufferVTypeParameter "BufferVType" 1 ]
  castBufferVType := fun b => match b with
    | .MallocVType => 0
    | .ChunkVType => 1
  castAggregationType := fun a => match a with
    | .EveryoneWrites => 0
    | .EveryoneWritesSerial => 1
    | .TwoLevelShm => 2
  castAsyncWrite := fun a => match a with
    | .Sync => 0
    | .Naive => 1
    | .Guided => 2
  StringToFloat := fun value _ => (stoul value).map CFloat.mk
  StringToByteUnits := fun value _ => stoul value

/-- A record to start from: every field holds the integer `-1`. -/
def sampleParams : DAOSParams := fun _ => .int (-1)

/-! ### How a field comes out of `ParseParams` -/

namespace DaosEngine

/-- `ParseParams` ends in an exception thrown for another field than `Param`:
some line of the table with a different field name has a closure call that
throws `e`, and `e` is what `ParseParams` throws. -/
def StoppedByOtherField (E : Decls) (m_RankMPI : Int) (m_EngineType : String)
    (m_Parameters : List (String × String)) (Params : DAOSParams) (Param : String) : Prop :=
  ∃ d ∈ E.DAOS_FOREACH_PARAMETER_TYPE_4ARGS, d.Param ≠ Param ∧
    ∃ e, setParameter E (params_lowercase m_Parameters) d = .error e ∧
      ParseParams E m_RankMPI m_EngineType m_Parameters Params = .error e

/-- The field of the table line `d` resolves to `x`: the closure call for
`d` assigns `x`, and `ParseParams` returns a record that holds `x` in that
field, unless it is stopped by the exception of another field. -/
def ResolvesTo (E : Decls) (m_RankMPI : Int) (m_EngineType : String)
    (m_Parameters : List (String × String)) (Params : DAOSParams) (d : ParamDecl)
    (x : ParamValue) : Prop :=
  setParameter E (params_lowercase m_Parameters) d = .ok x ∧
  ((∃ R out, ParseParams E m_RankMPI m_EngineType m_Parameters Params = .ok (R, out) ∧
      R d.Param = x) ∨
    StoppedByOtherField E m_RankMPI m_EngineType m_Parameters Params d.Param)

/-- The field of the table line `d` is a configuration error: the closure
call for `d` throws `invalid_argument`, and `ParseParams` returns no record:
it throws that exception, unless another field has stopped it before with an
exception of its own. -/
def RaisesInvalidArgument (E : Decls) (m_RankMPI : Int) (m_EngineType : String)
    (m_Parameters : List (String × String)) (Params : DAOSParams) (d : ParamDecl) : Prop :=
  ∃ msg, setParameter E (params_lowercase m_Parameters) d = .error (.invalid_argument msg) ∧
    (ParseParams E m_RankMPI m_EngineType m_Parameters Params
        = .error (.invalid_argument msg) ∨
      StoppedByOtherField E m_RankMPI m_EngineType m_Parameters Params d.Param)

end DaosEngine

/-! ## MhsReader: tiered read (`MhsReader.tcc`) -/

namespace MhsReader

/-- `core::Variable<T>`: the handle of a variable; the reader only takes its
name from it. -/
structure Variable where
  m_Name : String
  deriving DecidableEq, Repr

/-- Modelled from the spec: one tier, the pair `m_SubIOs[i]`,
`m_SubEngines[i]` (`MhsReader.h` and the sub-engines are not part of the
translated sources): "an independent configuration context with an owned
inner Engine".  `store` gives, for each variable the tier defines, the value
its engine serves. -/
structure Tier (T : Type) where
  store : String → Option T

/-- Modelled from the spec: `m_SubIOs[i]->InquireVariable<T>(name)`, "returns
a handle to previously-declared metadata, or a null result if unknown"; the
null pointer is `none`. -/
def Tier.InquireVariable {T : Type} (t : Tier T) (name : String) : Option Variable :=
  match t.store name with
  | some _ => some ⟨name⟩
  | none => none

/-- Modelled from the spec: `m_SubEngines[i]->Get(var, data, Mode::Sync)`,
"fetch the variable" of that tier into the destination buffer: the new
contents of `*data`, or `none` when the tier does not hold the variable (the
spec leaves that case open). -/
def Tier.Get {T : Type} (t : Tier T) (var : Variable) (_data : T) : Option T :=
  t.store var.m_Name

/-- A tier given by the list of the variables it defines. -/
def Tier.ofList {T : Type} (vars : List (String × T)) : Tier T :=
  ⟨fun name => vars.lookup name⟩

/-- The calls the reader makes on its tiers, with the tier index. -/
inductive Call where
  | InquireVariable (tier : Nat) (name : String)
  | Get (tier : Nat) (name : String)
  deriving DecidableEq, Repr

/-- The ways a read ends without returning: `*var` on the null pointer that
`InquireVariable` returned for tier `tier`, a `Get` on a tier that does not
hold the variable, and `m_SubEngines[0]` on an empty tier list. -/
inductive Fault where
  | nullDereference (tier : Nat)
  | notHeld (tier : Nat)
  | noTier
  deriving DecidableEq, Repr

/-- The destination buffer `*data` and the calls made so far. -/
structure ReadState (T : Type) where
  data : T
  calls : List Call

/-- The loop `for (int i = 1; i < m_Tiers; ++i)` of `GetDeferredCommon`,
from index `i` on, over the tiers `i`, `i + 1`, ... that remain. -/
def tierLoop {T : Type} (name : String) : Nat → List (Tier T) → ReadState T →
    Except Fault (ReadState T)
  | _, [], s => .ok s
  | i, t :: rest, s =>
    let s1 : ReadState T := ⟨s.data, s.calls ++ [Call.InquireVariable i name]⟩
    match t.InquireVariable name with
    | none => .error (.nullDereference i)
    | some var =>
      match t.Get var s1.data with
      | none => .error (.notHeld i)
      | some v => tierLoop name (i + 1) rest ⟨v, s1.calls ++ [Call.Get i var.m_Name]⟩

/-- `MhsReader::GetDeferredCommon<T>` for an element type other than
`std::string`; `tiers` are the `m_Tiers` pairs of sub-IO and sub-engine and
`var0` is the argument `variable`. -/
def GetDeferredCommon {T : Type} (tiers : List (Tier T)) (var0 : Variable)
    (s : ReadState T) : Except Fault (ReadState T) :=
  match tiers with
  | [] => .error .noTier
  | t0 :: rest =>
    match t0.Get var0 s.data with
    | none => .error (.notHeld 0)
    | some v => tierLoop var0.m_Name 1 rest ⟨v, s.calls ++ [Call.Get 0 var0.m_Name]⟩

/-- The specialisation `MhsReader::GetDeferredCommon<std::string>`. -/
def GetDeferredCommonString (tiers : List (Tier String)) (var0 : Variable)
    (s : ReadState String) : Except Fault (ReadState String) :=
  match tiers with
  | [] => .error .noTier
  | t0 :: _ =>
    match t0.Get var0 s.data with
    | none => .error (.notHeld 0)
    | some v => .ok ⟨v, s.calls ++ [Call.Get 0 var0.m_Name]⟩

/-- Modelled from the spec: `MhsReader::PerformGets` (`MhsReader.cpp` is not
part of the translated sources), the barrier that "executes all queued
reads".  The reader hands every `Get` to its sub-engines in `Mode::Sync`, so
nothing is queued when the barrier runs and the buffer is left as it is. -/
def PerformGets {T : Type} (s : ReadState T) : ReadState T := s

/-- `MhsReader::GetSyncCommon<T>`, element type other than `std::string`. -/
def GetSyncCommon {T : Type} (tiers : List (Tier T)) (var0 : Variable)
    (s : ReadState T) : Except Fault (ReadState T) :=
  match GetDeferredCommon tiers var0 s with
  | .error e => .error e
  | .ok s1 => .ok (PerformGets s1)

/-- `MhsReader::GetSyncCommon<std::string>`. -/
def GetSyncCommonString (tiers : List (Tier String)) (var0 : Variable)
    (s : ReadState String) : Except Fault (ReadState String) :=
  match GetDeferredCommonString tiers var0 s with
  | .error e => .error e
  | .ok s1 => .ok (PerformGets s1)

/-- The three tiers of the override example: tier 0 defines `x = 1`, tier 1
defines `x = 2`, tier 2 defines no `x` (it defines `y`). -/
def overrideTiers : List (Tier Int) :=
  [Tier.ofList [("x", 1)], Tier.ofList [("x", 2)], Tier.ofList [("y", 7)]]

end MhsReader

/-! ## Further vocabulary: numeric text, engine members, call sequences -/

/-- The text starts, after white space and at most one sign, with a decimal
digit. -/
def startsWithInteger (s : List Char) : Bool :=
  match s.dropWhile isspace with
  | '-' :: c :: _ => c.isDigit
  | '+' :: c :: _ => c.isDigit
  | c :: _ => c.isDigit
  | [] => false

namespace DaosEngine

/-- The field of the table line `d` makes `ParseParams` throw `e`: the
closure call for `d` throws `e`, and `ParseParams` returns no record: it
throws `e`, unless another field has stopped it before with an exception of
its own. -/
def RaisesException (E : Decls) (m_RankMPI : Int) (m_EngineType : String)
    (m_Parameters : List (String × String)) (Params : DAOSParams) (d : ParamDecl)
    (e : Exn) : Prop :=
  setParameter E (params_lowercase m_Parameters) d = .error e ∧
    (ParseParams E m_RankMPI m_EngineType m_Parameters Params = .error e ∨
      StoppedByOtherField E m_RankMPI m_EngineType m_Parameters Params d.Param)

/-- The members of the engine object that tell one process from another:
`m_RankMPI` and `m_SizeMPI`, the rank and the size of the group. -/
structure Members where
  m_RankMPI : Int
  m_SizeMPI : Int
  deriving DecidableEq, Repr

/-- The `const` member function `GetBPMetadataFileName` with its object. -/
def Members.GetBPMetadataFileName (_this : Members) (name : String) : String :=
  DaosEngine.GetBPMetadataFileName name

/-- The `const` member function `GetBPMetaMetadataFileName` with its object. -/
def Members.GetBPMetaMetadataFileName (_this : Members) (name : String) : String :=
  DaosEngine.GetBPMetaMetadataFileName name

/-- The `const` member function `GetBPMetadataIndexFileName` with its
object. -/
def Members.GetBPMetadataIndexFileName (_this : Members) (name : String) : String :=
  DaosEngine.GetBPMetadataIndexFileName name

/-- The `const` member function `GetBPVersionFileName` with its object. -/
def Members.GetBPVersionFileName (_this : Members) (name : String) : String :=
  DaosEngine.GetBPVersionFileName name

/-- The `const` member function `GetBPSubStreamName` with its object. -/
def Members.GetBPSubStreamName (_this : Members) (name : String) (id : Nat)
    (hasSubFiles : Bool) (isReader : Bool) : String :=
  DaosEngine.GetBPSubStreamName name id hasSubFiles isReader

end DaosEngine

namespace MhsReader

/-- The tier a `Get` call goes to; `none` for a call that is not a `Get`. -/
def Call.getTier? : Call → Option Nat
  | .Get tier _ => some tier
  | .InquireVariable _ _ => none

/-- The tier a lookup by name goes to; `none` for a call that is not one. -/
def Call.inquireTier? : Call → Option Nat
  | .InquireVariable tier _ => some tier
  | .Get _ _ => none

/-- The calls of `k` rounds of the loop that starts at tier `i`: for each
tier in turn the lookup in its own IO, then the `Get` on its engine. -/
def loopCalls (name : String) : Nat → Nat → List Call
  | _, 0 => []
  | i, k + 1 => Call.InquireVariable i name :: Call.Get i name :: loopCalls name (i + 1) k

/-- Three tiers that all define `x`, with the values 1, 2 and 3. -/
def definedTiers : List (Tier Int) :=
  [Tier.ofList [("x", 1)], Tier.ofList [("x", 2)], Tier.ofList [("x", 3)]]

/-- Three tiers for a text variable `s`: the first two define it, as `a` and
as `b`, the third does not. -/
def textTiers : List (Tier String) :=
  [Tier.ofList [("s", "a")], Tier.ofList [("s", "b")], Tier.ofList []]

end MhsReader

/-! ## Engine: transport index (`Engine.h`) -/

namespace Engine

/-- One entry of `m_Transports`; of a transport only whether it is open
matters here. -/
structure Transport where
  isOpen : Bool
  deriving DecidableEq, Repr

/-- Modelled from the spec: the "UsageError" raised for "a transport index
outside `[-1, size-1]`". -/
inductive UsageError where
  | transportIndexOutOfRange (transportIndex : Int)
  deriving DecidableEq, Repr

/-- Modelled from the spec: `Engine::CheckTransportIndex`, which `Engine.h`
declares (lines 248 to 252) and whose body is not part of the translated
sources.  The header says it "throws an exception in debug mode if transport
index is out of range", the index "must be in the range
`[-1, m_Transports.size()-1]`"; the spec says the error is "detected only
when validation is enabled". -/
def CheckTransportIndex (m_DebugMode : Bool) (m_Transports : List Transport)
    (transportIndex : Int) : Except UsageError Unit :=
  if m_DebugMode then
    if transportIndex < -1 ∨ (m_Transports.length : Int) - 1 < transportIndex then
      .error (.transportIndexOutOfRange transportIndex)
    else .ok ()
  else .ok ()

/-- The transport set with the transport at position `n` closed. -/
def closeAt : Nat → List Transport → List Transport
  | _, [] => []
  | 0, _ :: rest => ⟨false⟩ :: rest
  | n + 1, t :: rest => t :: closeAt n rest

/-- Modelled from the spec: `Close(transportIndex = -1)`, pure virtual in
`Engine.h` (line 167): it "closes one transport (bounds-checked against
`[-1, size-1]`, else a usage error) or, for -1, all transports".  The result
is the transport set after the call. -/
def Close (m_DebugMode : Bool) (m_Transports : List Transport) (transportIndex : Int) :
    Except UsageError (List Transport) :=
  match CheckTransportIndex m_DebugMode m_Transports transportIndex with
  | .error e => .error e
  | .ok _ =>
    if transportIndex = -1 then .ok (m_Transports.map (fun _ => ⟨false⟩))
    else .ok (closeAt transportIndex.toNat m_Transports)

end Engine

/-! ## Lemmas on the helpers -/

theorem RemoveTrailingSlash_append_sep (r : String) :
    helper.RemoveTrailingSlash (r ++ String.singleton PathSeparator) = r := by
  have hd : (r ++ String.singleton PathSeparator).data = r.data ++ [PathSeparator] := rfl
  unfold helper.RemoveTrailingSlash
  rw [hd]
  simp

theorem RemoveTrailingSlash_of_not_sep (r : String)
    (h : r.data.getLast? ≠ some PathSeparator) : helper.RemoveTrailingSlash r = r := by
  unfold helper.RemoveTrailingSlash
  rw [if_neg h]

theorem toLower_toLower_idem (c : Char) : c.toLower.toLower = c.toLower := by
  by_cases h : c.toNat ≥ 65 ∧ c.toNat ≤ 90
  · have hc : c = Char.ofNat c.toNat := by simp
    obtain ⟨h1, h2⟩ := h
    rw [hc]
    generalize c.toNat = n at h1 h2
    interval_cases n <;> decide
  · have hc : c.toLower = c := by
      unfold Char.toLower
      simp only [if_neg h]
    rw [hc, hc]

theorem LowerCase_idem (s : String) :
    helper.LowerCase (helper.LowerCase s) = helper.LowerCase s := by
  have h : Char.toLower ∘ Char.toLower = Char.toLower := by
    funext c
    exact toLower_toLower_idem c
  simp [helper.LowerCase, h]

/-! ## Lemmas on the lower-cased map -/

namespace DaosEngine

/-- The lower-cased map holds, for a key, the lower-cased value of the last
entry of the configuration whose key lower-cases to it. -/
theorem params_lowercase_eq (c : List (String × String)) (q : String) :
    params_lowercase c q
      = (c.reverse.find? (fun p => decide (helper.LowerCase p.1 = q))).map
          (fun p => helper.LowerCase p.2) := by
  induction c using List.reverseRecOn with
  | nil => rfl
  | append_singleton init p ih =>
    have hstep : params_lowercase (init ++ [p])
        = (params_lowercase init).assign (helper.LowerCase p.1) (helper.LowerCase p.2) := by
      simp [params_lowercase, List.foldl_append]
    rw [hstep, List.reverse_append, List.reverse_singleton, List.singleton_append,
      List.find?_cons]
    by_cases hq : helper.LowerCase p.1 = q
    · simp [StrMap.assign, hq]
    · have hq2 : ¬ q = helper.LowerCase p.1 := fun h => hq h.symm
      simp only [StrMap.assign, hq2, if_false, hq, decide_False]
      exact ih

/-- A key that one entry only carries, up to letter case, is stored with the
lower-cased value of that entry. -/
theorem params_lowercase_of_only (c : List (String × String)) (k v lk : String)
    (hmem : (k, v) ∈ c) (hkey : helper.LowerCase k = lk)
    (honly : ∀ p ∈ c, helper.LowerCase p.1 = lk → p = (k, v)) :
    params_lowercase c lk = some (helper.LowerCase v) := by
  rw [params_lowercase_eq]
  cases hf : c.reverse.find? (fun p => decide (helper.LowerCase p.1 = lk)) with
  | none =>
    rw [List.find?_eq_none] at hf
    have := hf (k, v) (List.mem_reverse.mpr hmem)
    simp [hkey] at this
  | some p =>
    have hp : p ∈ c := List.mem_reverse.mp (List.mem_of_find?_eq_some hf)
    have hpk : helper.LowerCase p.1 = lk := by
      have := List.find?_some hf
      simpa using this
    rw [honly p hp hpk]
    rfl

/-- With no two keys equal up to letter case, the lower-cased map stores `x`
under `q` exactly when the lower-cased configuration has the entry `(q, x)`. -/
theorem params_lowercase_eq_some_iff (c : List (String × String))
    (hnd : (c.map (fun p => helper.LowerCase p.1)).Nodup) (q x : String) :
    params_lowercase c q = some x ↔
      (q, x) ∈ c.map (fun p => (helper.LowerCase p.1, helper.LowerCase p.2)) := by
  constructor
  · intro h
    rw [params_lowercase_eq] at h
    cases hf : c.reverse.find? (fun p => decide (helper.LowerCase p.1 = q)) with
    | none => rw [hf] at h; simp at h
    | some p =>
      rw [hf] at h
      have hp : p ∈ c := List.mem_reverse.mp (List.mem_of_find?_eq_some hf)
      have hpk : helper.LowerCase p.1 = q := by
        have := List.find?_some hf
        simpa using this
      simp only [Option.map_some', Option.some.injEq] at h
      exact List.mem_map.mpr ⟨p, hp, by rw [hpk, h]⟩
  · intro h
    obtain ⟨p, hp, hpe⟩ := List.mem_map.mp h
    have hp1 : helper.LowerCase p.1 = q := congrArg Prod.fst hpe
    have hp2 : helper.LowerCase p.2 = x := congrArg Prod.snd hpe
    have hv := params_lowercase_of_only c p.1 p.2 q hp hp1 (by
      intro p' hp' hk
      exact List.inj_on_of_nodup_map hnd hp' hp (by rw [hk, hp1]))
    rw [hv, hp2]

/-- Changing only the letter case of keys and values, and the place of the
entries, leaves the lower-cased map as it is. -/
theorem params_lowercase_congr (c c' : List (String × String))
    (hnd : (c.map (fun p => helper.LowerCase p.1)).Nodup)
    (hnd' : (c'.map (fun p => helper.LowerCase p.1)).Nodup)
    (hperm : (c.map (fun p => (helper.LowerCase p.1, helper.LowerCase p.2))).Perm
      (c'.map (fun p => (helper.LowerCase p.1, helper.LowerCase p.2)))) :
    params_lowercase c = params_lowercase c' := by
  funext q
  apply Option.ext
  intro x
  show params_lowercase c q = some x ↔ params_lowercase c' q = some x
  rw [params_lowercase_eq_some_iff c hnd, params_lowercase_eq_some_iff c' hnd']
  exact hperm.mem_iff

end DaosEngine

/-! ## Lemmas on the passes over the parameter table -/

namespace DaosEngine

/-- The pass `get_params` either returns, and then every closure call of the
table succeeds, fields outside the table are untouched and (field names
being distinct) each field holds what its call assigns, or it throws what the
call of one of the lines throws. -/
theorem get_params_cases (E : Decls) (m : StrMap) :
    ∀ (tbl : List ParamDecl) (P : DAOSParams),
      (∃ P', get_params E m tbl P = .ok P' ∧
          (∀ d ∈ tbl, ∃ x, setParameter E m d = .ok x) ∧
          (∀ q, (∀ d ∈ tbl, d.Param ≠ q) → P' q = P q) ∧
          ((tbl.map ParamDecl.Param).Nodup →
            ∀ d ∈ tbl, setParameter E m d = .ok (P' d.Param))) ∨
      (∃ d ∈ tbl, ∃ e, setParameter E m d = .error e ∧ get_params E m tbl P = .error e) := by
  intro tbl
  induction tbl with
  | nil =>
    intro P
    exact Or.inl ⟨P, rfl, by simp, fun _ _ => rfl, by simp⟩
  | cons d rest ih =>
    intro P
    cases hd : setParameter E m d with
    | error e =>
      refine Or.inr ⟨d, List.mem_cons_self _ _, e, hd, ?_⟩
      simp [get_params, hd]
    | ok v =>
      have hstep : get_params E m (d :: rest) P = get_params E m rest (P.set d.Param v) := by
        simp [get_params, hd]
      rcases ih (P.set d.Param v) with ⟨P', hok, hall, hframe, hval⟩ | ⟨d', hd', e, he, herr⟩
      · refine Or.inl ⟨P', by rw [hstep, hok], ?_, ?_, ?_⟩
        · intro d' hd'
          rcases List.mem_cons.mp hd' with rfl | h
          · exact ⟨v, hd⟩
          · exact hall d' h
        · intro q hq
          rw [hframe q (fun d' h => hq d' (List.mem_cons_of_mem _ h))]
          have hne : ¬ q = d.Param := fun h => hq d (List.mem_cons_self _ _) h.symm
          simp [DAOSParams.set, hne]
        · intro hnd d' hd'
          rw [List.map_cons, List.nodup_cons] at hnd
          rcases List.mem_cons.mp hd' with rfl | h
          · have hnot : ∀ d'' ∈ rest, d''.Param ≠ d'.Param := by
              intro d'' h'' heq
              exact hnd.1 (List.mem_map.mpr ⟨d'', h'', heq⟩)
            rw [hframe d'.Param hnot, hd]
            simp [DAOSParams.set]
          · exact hval hnd.2 d' h
      · exact Or.inr ⟨d', List.mem_cons_of_mem _ hd', e, he, by rw [hstep, herr]⟩

/-- The pass `print_params` throws what `get_params` throws from the same
record, and returns the record `get_params` returns. -/
theorem print_params_of_get_params (E : Decls) (m : StrMap) (m_RankMPI : Int) :
    ∀ (tbl : List ParamDecl) (P : DAOSParams) (out : List OutLine),
      (∀ e, get_params E m tbl P = .error e →
        print_params E m m_RankMPI tbl P out = .error e) ∧
      (∀ P', get_params E m tbl P = .ok P' →
        ∃ out', print_params E m m_RankMPI tbl P out = .ok (P', out')) := by
  intro tbl
  induction tbl with
  | nil =>
    intro P out
    constructor
    · intro e h
      simp [get_params] at h
    · intro P' h
      simp only [get_params, Except.ok.injEq] at h
      exact ⟨out, by simp [print_params, h]⟩
  | cons d rest ih =>
    intro P out
    cases hd : setParameter E m d with
    | error e =>
      constructor
      · intro e' h
        simp only [get_params, hd, Except.error.injEq] at h
        simp [print_params, hd, h]
      · intro P' h
        simp [get_params, hd] at h
    | ok v =>
      constructor
      · intro e h
        simp only [get_params, hd] at h
        simp only [print_params, hd]
        exact (ih _ _).1 e h
      · intro P' h
        simp only [get_params, hd] at h
        simp only [print_params, hd]
        exact (ih _ _).2 P' h

/-- `ParseParams` either returns a record, and then every closure call of the
table succeeds, fields outside the table are as before and (field names being
distinct) each field holds what its call assigns, or it throws what the call
of one of the lines throws. -/
theorem ParseParams_cases (E : Decls) (m_RankMPI : Int) (m_EngineType : String)
    (c : List (String × String)) (P : DAOSParams) :
    (∃ R out, ParseParams E m_RankMPI m_EngineType c P = .ok (R, out) ∧
        (∀ d ∈ E.DAOS_FOREACH_PARAMETER_TYPE_4ARGS,
          ∃ x, setParameter E (params_lowercase c) d = .ok x) ∧
        (∀ q, (∀ d ∈ E.DAOS_FOREACH_PARAMETER_TYPE_4ARGS, d.Param ≠ q) → R q = P q) ∧
        ((E.DAOS_FOREACH_PARAMETER_TYPE_4ARGS.map ParamDecl.Param).Nodup →
          ∀ d ∈ E.DAOS_FOREACH_PARAMETER_TYPE_4ARGS,
            setParameter E (params_lowercase c) d = .ok (R d.Param))) ∨
    (∃ d ∈ E.DAOS_FOREACH_PARAMETER_TYPE_4ARGS, ∃ e,
        setParameter E (params_lowercase c) d = .error e ∧
        ParseParams E m_RankMPI m_EngineType c P = .error e) := by
  rcases get_params_cases E (params_lowercase c) E.DAOS_FOREACH_PARAMETER_TYPE_4ARGS P with
    ⟨P1, hok, hall, hframe, hval⟩ | ⟨d, hd, e, he, herr⟩
  · by_cases hv : (verbosePositive P1 && decide (m_RankMPI = 0)) = true
    · rcases get_params_cases E (params_lowercase c) E.DAOS_FOREACH_PARAMETER_TYPE_4ARGS P1 with
        ⟨P2, hok2, _, hframe2, hval2⟩ | ⟨d, hd, e, he, _⟩
      · obtain ⟨out', hpr⟩ :=
          (print_params_of_get_params E (params_lowercase c) m_RankMPI
            E.DAOS_FOREACH_PARAMETER_TYPE_4ARGS P1 [OutLine.header m_EngineType]).2 P2 hok2
        refine Or.inl ⟨P2, out' ++ [OutLine.footer], ?_, hall, ?_, hval2⟩
        · simp only [ParseParams, hok, hv, if_true, hpr]
        · intro q hq
          rw [hframe2 q hq, hframe q hq]
      · obtain ⟨x, hx⟩ := hall d hd
        rw [hx] at he
        cases he
    · refine Or.inl ⟨P1, [], ?_, hall, hframe, hval⟩
      simp only [ParseParams, hok, hv]
      rfl
  · refine Or.inr ⟨d, hd, e, he, ?_⟩
    simp only [ParseParams, herr]

/-- A field whose closure call assigns `x` resolves to `x`. -/
theorem resolvesTo_of_setParameter (E : Decls) (m_RankMPI : Int) (m_EngineType : String)
    (c : List (String × String)) (P : DAOSParams) (d : ParamDecl) (x : ParamValue)
    (hd : d ∈ E.DAOS_FOREACH_PARAMETER_TYPE_4ARGS)
    (hnd : (E.DAOS_FOREACH_PARAMETER_TYPE_4ARGS.map ParamDecl.Param).Nodup)
    (hx : setParameter E (params_lowercase c) d = .ok x) :
    ResolvesTo E m_RankMPI m_EngineType c P d x := by
  refine ⟨hx, ?_⟩
  rcases ParseParams_cases E m_RankMPI m_EngineType c P with
    ⟨R, out, hok, _, _, hval⟩ | ⟨d', hd', e, he, herr⟩
  · refine Or.inl ⟨R, out, hok, ?_⟩
    have := hval hnd d hd
    rw [hx] at this
    exact (Except.ok.inj this).symm
  · refine Or.inr ⟨d', hd', ?_, e, he, herr⟩
    intro heq
    have hdd : d' = d := List.inj_on_of_nodup_map hnd hd' hd heq
    rw [hdd, hx] at he
    cases he

/-- A field whose closure call throws `invalid_argument` is a configuration
error of `ParseParams`. -/
theorem raises_of_setParameter (E : Decls) (m_RankMPI : Int) (m_EngineType : String)
    (c : List (String × String)) (P : DAOSParams) (d : ParamDecl) (msg : String)
    (hd : d ∈ E.DAOS_FOREACH_PARAMETER_TYPE_4ARGS)
    (hnd : (E.DAOS_FOREACH_PARAMETER_TYPE_4ARGS.map ParamDecl.Param).Nodup)
    (hx : setParameter E (params_lowercase c) d = .error (.invalid_argument msg)) :
    RaisesInvalidArgument E m_RankMPI m_EngineType c P d := by
  refine ⟨msg, hx, ?_⟩
  rcases ParseParams_cases E m_RankMPI m_EngineType c P with
    ⟨R, out, _, hall, _, _⟩ | ⟨d', hd', e, he, herr⟩
  · obtain ⟨y, hy⟩ := hall d hd
    rw [hy] at hx
    cases hx
  · by_cases heq : d'.Param = d.Param
    · have hdd : d' = d := List.inj_on_of_nodup_map hnd hd' hd heq
      rw [hdd, hx] at he
      rw [← Except.error.inj he] at herr
      exact Or.inl herr
    · exact Or.inr ⟨d', hd', heq, e, he, herr⟩

/-- A field whose closure call throws `e` makes `ParseParams` throw. -/
theorem raisesException_of_setParameter (E : Decls) (m_RankMPI : Int)
    (m_EngineType : String) (c : List (String × String)) (P : DAOSParams) (d : ParamDecl)
    (e : Exn) (hd : d ∈ E.DAOS_FOREACH_PARAMETER_TYPE_4ARGS)
    (hnd : (E.DAOS_FOREACH_PARAMETER_TYPE_4ARGS.map ParamDecl.Param).Nodup)
    (hx : setParameter E (params_lowercase c) d = .error e) :
    RaisesException E m_RankMPI m_EngineType c P d e := by
  refine ⟨hx, ?_⟩
  rcases ParseParams_cases E m_RankMPI m_EngineType c P with
    ⟨R, out, _, hall, _, _⟩ | ⟨d', hd', e', he, herr⟩
  · obtain ⟨y, hy⟩ := hall d hd
    rw [hy] at hx
    cases hx
  · by_cases heq : d'.Param = d.Param
    · have hdd : d' = d := List.inj_on_of_nodup_map hnd hd' hd heq
      rw [hdd, hx] at he
      rw [← Except.error.inj he] at herr
      exact Or.inl herr
    · exact Or.inr ⟨d', hd', heq, e', he, herr⟩

end DaosEngine

/-! ## Lemmas on numeric text -/

theorem digitChar_lt_ten (k : Nat) (hk : k < 10) :
    (Nat.digitChar k).isDigit = true ∧ (Nat.digitChar k).toNat - 48 = k ∧
      isspace (Nat.digitChar k) = false ∧ Nat.digitChar k ≠ '-' ∧ Nat.digitChar k ≠ '+' ∧
      (Nat.digitChar k).toLower = Nat.digitChar k := by
  interval_cases k <;> decide

/-- The characters `toDigitsCore` puts in front of `ds`: a non-empty run of
digits, none of them white space, a sign or a letter, whose value is `n`. -/
theorem toDigitsCore_spec : ∀ (fuel n : Nat) (ds : List Char), n < fuel →
    ∃ l : List Char, Nat.toDigitsCore 10 fuel n ds = l ++ ds ∧ l ≠ [] ∧
      (∀ c ∈ l, c.isDigit = true ∧ isspace c = false ∧ c ≠ '-' ∧ c ≠ '+' ∧ c.toLower = c) ∧
      ∀ a : Nat, l.foldl (fun a c => 10 * a + (c.toNat - 48)) a = a * 10 ^ l.length + n := by
  intro fuel
  induction fuel with
  | zero => intro n ds h; omega
  | succ fuel ih =>
    intro n ds hn
    have hd := digitChar_lt_ten (n % 10) (Nat.mod_lt _ (by decide))
    by_cases h0 : n / 10 = 0
    · refine ⟨[Nat.digitChar (n % 10)], ?_, by simp, ?_, ?_⟩
      · simp [Nat.toDigitsCore, h0]
      · intro c hc
        rw [List.mem_singleton] at hc
        rw [hc]
        exact ⟨hd.1, hd.2.2⟩
      · intro a
        simp only [List.foldl_cons, List.foldl_nil, List.length_singleton, pow_one, hd.2.1]
        have : n % 10 = n := Nat.mod_eq_of_lt (by omega)
        omega
    · have hlt : n / 10 < fuel := by omega
      obtain ⟨l, hl, _, hall, hval⟩ := ih (n / 10) (Nat.digitChar (n % 10) :: ds) hlt
      refine ⟨l ++ [Nat.digitChar (n % 10)], ?_, by simp, ?_, ?_⟩
      · simp [Nat.toDigitsCore, h0, hl]
      · intro c hc
        rcases List.mem_append.mp hc with h | h
        · exact hall c h
        · rw [List.mem_singleton] at h
          rw [h]
          exact ⟨hd.1, hd.2.2⟩
      · intro a
        rw [List.foldl_append, hval a]
        simp only [List.foldl_cons, List.foldl_nil, hd.2.1, List.length_append,
          List.length_singleton, pow_succ]
        nlinarith [Nat.div_add_mod n 10]

/-- The decimal text of `n` is a non-empty run of digits whose value is `n`. -/
theorem repr_spec (n : Nat) :
    (Nat.repr n).data ≠ [] ∧
    (∀ c ∈ (Nat.repr n).data,
      c.isDigit = true ∧ isspace c = false ∧ c ≠ '-' ∧ c ≠ '+' ∧ c.toLower = c) ∧
    (Nat.repr n).data.foldl (fun a c => 10 * a + (c.toNat - 48)) 0 = n := by
  obtain ⟨l, hl, hne, hall, hval⟩ := toDigitsCore_spec (n + 1) n [] (Nat.lt_succ_self n)
  have hdata : (Nat.repr n).data = l := by
    simp [Nat.repr, Nat.toDigits, hl, List.asString]
  rw [hdata]
  refine ⟨hne, hall, ?_⟩
  simpa using hval 0

/-- Lower-casing leaves a decimal text as it is. -/
theorem LowerCase_repr (n : Nat) : helper.LowerCase (Nat.repr n) = Nat.repr n := by
  have h := (repr_spec n).2.1
  have hmap : (Nat.repr n).data.map Char.toLower = (Nat.repr n).data := by
    conv_rhs => rw [← List.map_id (Nat.repr n).data]
    exact List.map_congr_left (fun c hc => (h c hc).2.2.2.2)
  show String.mk ((Nat.repr n).data.map Char.toLower) = Nat.repr n
  rw [hmap]

theorem takeWhile_append_of_all {p : Char → Bool} (l tail : List Char)
    (hall : ∀ c ∈ l, p c = true) (htail : ∀ c ∈ tail.head?, p c = false) :
    (l ++ tail).takeWhile p = l := by
  induction l with
  | nil =>
    cases tail with
    | nil => rfl
    | cons c t =>
      have := htail c (by simp)
      simp [List.takeWhile, this]
  | cons c l ih =>
    have hc := hall c (List.mem_cons_self _ _)
    rw [List.cons_append, List.takeWhile_cons, hc, if_pos rfl,
      ih (fun c h => hall c (List.mem_cons_of_mem _ h))]

/-- The conversion of the decimal text of `n`, followed by anything that does
not start with a digit: no sign, magnitude `n`. -/
theorem strtoSubject_repr_append (n : Nat) (tail : List Char)
    (htail : ∀ c ∈ tail.head?, c.isDigit = false) :
    strtoSubject ((Nat.repr n).data ++ tail) = some (false, n) := by
  obtain ⟨hne, hall, hval⟩ := repr_spec n
  cases hl : (Nat.repr n).data with
  | nil => exact absurd hl hne
  | cons c l =>
    rw [hl] at hall hval
    have hc := hall c (List.mem_cons_self _ _)
    have htw : ((c :: l) ++ tail).takeWhile Char.isDigit = c :: l :=
      takeWhile_append_of_all (c :: l) tail (fun x hx => (hall x hx).1) htail
    have hdw : ((c :: l) ++ tail).dropWhile isspace = (c :: l) ++ tail := by
      simp [List.dropWhile, hc.2.1]
    unfold strtoSubject
    rw [hdw]
    have hsign : (match (c :: l) ++ tail with
        | '-' :: t => (true, t)
        | '+' :: t => (false, t)
        | _ => (false, (c :: l) ++ tail)) = (false, (c :: l) ++ tail) := by
      simp only [List.cons_append]
      split
      · rename_i heq
        exact absurd (List.cons.inj heq).1 hc.2.2.1
      · rename_i heq
        exact absurd (List.cons.inj heq).1 hc.2.2.2.1
      · rfl
    simp only [hsign, htw, hval]

/-- A text that does not start with an integer converts to nothing. -/
theorem strtoSubject_eq_none (s : List Char) (h : startsWithInteger s = false) :
    strtoSubject s = none := by
  unfold startsWithInteger at h
  unfold strtoSubject
  generalize s.dropWhile isspace = r at h
  cases r with
  | nil => rfl
  | cons c t =>
    by_cases hm : c = '-'
    · subst hm
      cases t with
      | nil => rfl
      | cons c2 t2 =>
        have hc : c2.isDigit = false := h
        simp [List.takeWhile, hc]
    · by_cases hp : c = '+'
      · subst hp
        cases t with
        | nil => rfl
        | cons c2 t2 =>
          have hc : c2.isDigit = false := h
          simp [List.takeWhile, hc]
      · have hc : c.isDigit = false := by
          split at h
          · rename_i heq
            exact absurd (List.cons.inj heq).1 hm
          · rename_i heq
            exact absurd (List.cons.inj heq).1 hp
          · rename_i heq
            rw [(List.cons.inj heq).1]
            exact h
          · rename_i heq
            cases heq
        have hsign : (match c :: t with
            | '-' :: t => (true, t)
            | '+' :: t => (false, t)
            | _ => (false, c :: t)) = (false, c :: t) := by
          split
          · rename_i heq
            exact absurd (List.cons.inj heq).1 hm
          · rename_i heq
            exact absurd (List.cons.inj heq).1 hp
          · rfl
        simp only [hsign, List.takeWhile, hc]

/-! ## File naming -/

/-- C3: each of the four global file names is the root without its trailing
separator, then the separator, then the fixed suffix `md.0`, `mmd.0`,
`md.idx` or `.bpversion`; none of the functions takes a rank, the digit is
always 0.  For the root `run1/` the names are `run1/md.0`, `run1/mmd.0`,
`run1/md.idx` and `run1/.bpversion`. -/
theorem C3_fixed_suffix_file_names (r : String) :
    (DaosEngine.GetBPMetadataFileName r
        = helper.RemoveTrailingSlash r ++ String.singleton PathSeparator ++ "md.0" ∧
      DaosEngine.GetBPMetaMetadataFileName r
        = helper.RemoveTrailingSlash r ++ String.singleton PathSeparator ++ "mmd.0" ∧
      DaosEngine.GetBPMetadataIndexFileName r
        = helper.RemoveTrailingSlash r ++ String.singleton PathSeparator ++ "md.idx" ∧
      DaosEngine.GetBPVersionFileName r
        = helper.RemoveTrailingSlash r ++ String.singleton PathSeparator ++ ".bpversion") ∧
    (DaosEngine.GetBPMetadataFileName "run1/" = "run1/md.0" ∧
      DaosEngine.GetBPMetaMetadataFileName "run1/" = "run1/mmd.0" ∧
      DaosEngine.GetBPMetadataIndexFileName "run1/" = "run1/md.idx" ∧
      DaosEngine.GetBPVersionFileName "run1/" = "run1/.bpversion") := by
  have h0 : to_string 0 = "0" := by decide
  refine ⟨⟨?_, ?_, rfl, rfl⟩, by decide⟩
  · show _ ++ "md." ++ to_string 0 = _
    rw [h0, String.append_assoc _ "md." "0"]
    rfl
  · show _ ++ "mmd." ++ to_string 0 = _
    rw [h0, String.append_assoc _ "mmd." "0"]
    rfl

/-- C4: for a non-empty root that does not end in the separator, appending
the separator changes none of the four global file names. -/
theorem C4_trailing_separator_invariance (r : String) (hne : r ≠ "")
    (hsep : r.data.getLast? ≠ some PathSeparator) :
    DaosEngine.GetBPMetadataFileName (r ++ String.singleton PathSeparator)
        = DaosEngine.GetBPMetadataFileName r ∧
    DaosEngine.GetBPMetaMetadataFileName (r ++ String.singleton PathSeparator)
        = DaosEngine.GetBPMetaMetadataFileName r ∧
    DaosEngine.GetBPMetadataIndexFileName (r ++ String.singleton PathSeparator)
        = DaosEngine.GetBPMetadataIndexFileName r ∧
    DaosEngine.GetBPVersionFileName (r ++ String.singleton PathSeparator)
        = DaosEngine.GetBPVersionFileName r := by
  have _ := hne
  simp only [DaosEngine.GetBPMetadataFileName, DaosEngine.GetBPMetaMetadataFileName,
    DaosEngine.GetBPMetadataIndexFileName, DaosEngine.GetBPVersionFileName,
    RemoveTrailingSlash_append_sep, RemoveTrailingSlash_of_not_sep r hsep, and_self]

/-- Witness of C4 at the root `run1`: `run1/` and `run1` give the same four
names. -/
theorem C4_trailing_separator_invariance_witness :
    ("run1" ≠ "" ∧ "run1".data.getLast? ≠ some PathSeparator) ∧
    (DaosEngine.GetBPMetadataFileName ("run1" ++ String.singleton PathSeparator)
        = DaosEngine.GetBPMetadataFileName "run1" ∧
      DaosEngine.GetBPMetaMetadataFileName ("run1" ++ String.singleton PathSeparator)
        = DaosEngine.GetBPMetaMetadataFileName "run1" ∧
      DaosEngine.GetBPMetadataIndexFileName ("run1" ++ String.singleton PathSeparator)
        = DaosEngine.GetBPMetadataIndexFileName "run1" ∧
      DaosEngine.GetBPVersionFileName ("run1" ++ String.singleton PathSeparator)
        = DaosEngine.GetBPVersionFileName "run1") :=
  ⟨by decide, C4_trailing_separator_invariance "run1" (by decide) (by decide)⟩

/-- C5: with sub-files the data file of substream `n` is the root without its
trailing separator, the separator, `data.` and the decimal digits of `n`;
without sub-files the function returns the root it was given, unchanged;
`isReader` plays no part. -/
theorem C5_substream_name (r : String) (n : Nat) (isReader : Bool) :
    DaosEngine.GetBPSubStreamName r n true isReader
        = helper.RemoveTrailingSlash r ++ String.singleton PathSeparator ++ "data."
            ++ Nat.repr n ∧
    DaosEngine.GetBPSubStreamName r n false isReader = r :=
  ⟨rfl, rfl⟩

/-- C6, as stated, fails: without sub-files the root `run1/` is returned
with its separator, so `run1/` and `run1` give different names. -/
theorem C6_counterexample :
    ("run1" ≠ "" ∧ "run1".data.getLast? ≠ some PathSeparator) ∧
    DaosEngine.GetBPSubStreamName ("run1" ++ String.singleton PathSeparator) 3 false false
      ≠ DaosEngine.GetBPSubStreamName "run1" 3 false false := by
  decide

/-- C6, amended: for a non-empty root that does not end in the separator,
with sub-files the substream name is the same with and without an appended
separator; without sub-files the function hands back its argument, so the
two calls return the root with the separator and the root. -/
theorem C6_substream_strips_with_subfiles (r : String) (n : Nat) (isReader : Bool)
    (hne : r ≠ "") (hsep : r.data.getLast? ≠ some PathSeparator) :
    DaosEngine.GetBPSubStreamName (r ++ String.singleton PathSeparator) n true isReader
        = DaosEngine.GetBPSubStreamName r n true isReader ∧
    DaosEngine.GetBPSubStreamName (r ++ String.singleton PathSeparator) n false isReader
        = r ++ String.singleton PathSeparator ∧
    DaosEngine.GetBPSubStreamName r n false isReader = r := by
  have _ := hne
  refine ⟨?_, rfl, rfl⟩
  simp only [DaosEngine.GetBPSubStreamName, RemoveTrailingSlash_append_sep,
    RemoveTrailingSlash_of_not_sep r hsep, Bool.not_true, Bool.false_eq_true, if_false]

/-- Witness of the amended C6 at the root `run1`, substream 3. -/
theorem C6_substream_strips_with_subfiles_witness :
    ("run1" ≠ "" ∧ "run1".data.getLast? ≠ some PathSeparator) ∧
    (DaosEngine.GetBPSubStreamName ("run1" ++ String.singleton PathSeparator) 3 true false
        = DaosEngine.GetBPSubStreamName "run1" 3 true false ∧
      DaosEngine.GetBPSubStreamName ("run1" ++ String.singleton PathSeparator) 3 false false
        = "run1" ++ String.singleton PathSeparator ∧
      DaosEngine.GetBPSubStreamName "run1" 3 false false = "run1") :=
  ⟨by decide, C6_substream_strips_with_subfiles "run1" 3 false (by decide) (by decide)⟩

/-! ## Tiered read -/

/-- C1: on the three tiers of the override example (tier 0 has `x = 1`,
tier 1 has `x = 2`, tier 2 does not define `x`) the sync read of `x` does not
skip tier 2: the lookup in tier 2 returns the null pointer and the read ends
in its dereference; on the first two tiers alone it returns 2. -/
theorem C1_sync_read_missing_tier_is_dereferenced :
    (MhsReader.GetSyncCommon MhsReader.overrideTiers ⟨"x"⟩ ⟨0, []⟩).map (fun s => s.data)
        = .error (.nullDereference 2) ∧
    (MhsReader.GetSyncCommon (MhsReader.overrideTiers.take 2) ⟨"x"⟩ ⟨0, []⟩).map
        (fun s => s.data) = .ok 2 := by
  decide

/-! ## Parameter resolution -/

/-- C2: in a configuration whose only key equal to the async-write key up to
letter case carries the value `v`, the async-write field resolves to Guided
when the lower-cased `v` is `guided`, `auto`, `on` or `true`, to Sync when it
is `sync`, `off` or `false`, to Naive when it is `naive`, and for every other
`v` the closure throws `invalid_argument` and `ParseParams` returns no
record. -/
theorem C2_async_write_mode_resolution (E : Decls) (m_RankMPI : Int) (m_EngineType : String)
    (c : List (String × String)) (P : DAOSParams) (Param : String) (Default : Int)
    (k v : String)
    (hdecl : ParamDecl.AsyncWriteParameter Param Default ∈ E.DAOS_FOREACH_PARAMETER_TYPE_4ARGS)
    (hfields : (E.DAOS_FOREACH_PARAMETER_TYPE_4ARGS.map ParamDecl.Param).Nodup)
    (hmem : (k, v) ∈ c) (hkey : helper.LowerCase k = helper.LowerCase Param)
    (honly : ∀ p ∈ c, helper.LowerCase p.1 = helper.LowerCase Param → p = (k, v)) :
    ((helper.LowerCase v = "guided" ∨ helper.LowerCase v = "auto" ∨
        helper.LowerCase v = "on" ∨ helper.LowerCase v = "true") →
      DaosEngine.ResolvesTo E m_RankMPI m_EngineType c P
        (.AsyncWriteParameter Param Default) (.int (E.castAsyncWrite .Guided))) ∧
    ((helper.LowerCase v = "sync" ∨ helper.LowerCase v = "off" ∨
        helper.LowerCase v = "false") →
      DaosEngine.ResolvesTo E m_RankMPI m_EngineType c P
        (.AsyncWriteParameter Param Default) (.int (E.castAsyncWrite .Sync))) ∧
    (helper.LowerCase v = "naive" →
      DaosEngine.ResolvesTo E m_RankMPI m_EngineType c P
        (.AsyncWriteParameter Param Default) (.int (E.castAsyncWrite .Naive))) ∧
    (¬ (helper.LowerCase v = "guided" ∨ helper.LowerCase v = "auto" ∨
        helper.LowerCase v = "on" ∨ helper.LowerCase v = "true" ∨
        helper.LowerCase v = "sync" ∨ helper.LowerCase v = "off" ∨
        helper.LowerCase v = "false" ∨ helper.LowerCase v = "naive") →
      DaosEngine.RaisesInvalidArgument E m_RankMPI m_EngineType c P
        (.AsyncWriteParameter Param Default)) := by
  have hfind := DaosEngine.params_lowercase_of_only c k v (helper.LowerCase Param) hmem hkey honly
  refine ⟨fun h => ?_, fun h => ?_, fun h => ?_, fun h => ?_⟩
  · apply DaosEngine.resolvesTo_of_setParameter E _ _ c P _ _ hdecl hfields
    simp only [DaosEngine.setParameter, DaosEngine.lf_SetAsyncWriteParameter, hfind,
      LowerCase_idem, if_pos h]
    rfl
  · have h1 : ¬ (helper.LowerCase v = "guided" ∨ helper.LowerCase v = "auto" ∨
        helper.LowerCase v = "on" ∨ helper.LowerCase v = "true") := by
      rcases h with h | h | h <;> rw [h] <;> decide
    apply DaosEngine.resolvesTo_of_setParameter E _ _ c P _ _ hdecl hfields
    simp only [DaosEngine.setParameter, DaosEngine.lf_SetAsyncWriteParameter, hfind,
      LowerCase_idem, if_neg h1, if_pos h]
    rfl
  · have h1 : ¬ (helper.LowerCase v = "guided" ∨ helper.LowerCase v = "auto" ∨
        helper.LowerCase v = "on" ∨ helper.LowerCase v = "true") := by
      rw [h]; decide
    have h2 : ¬ (helper.LowerCase v = "sync" ∨ helper.LowerCase v = "off" ∨
        helper.LowerCase v = "false") := by
      rw [h]; decide
    apply DaosEngine.resolvesTo_of_setParameter E _ _ c P _ _ hdecl hfields
    simp only [DaosEngine.setParameter, DaosEngine.lf_SetAsyncWriteParameter, hfind,
      LowerCase_idem, if_neg h1, if_neg h2, if_pos h]
    rfl
  · have h1 : ¬ (helper.LowerCase v = "guided" ∨ helper.LowerCase v = "auto" ∨
        helper.LowerCase v = "on" ∨ helper.LowerCase v = "true") := fun hh => h (by tauto)
    have h2 : ¬ (helper.LowerCase v = "sync" ∨ helper.LowerCase v = "off" ∨
        helper.LowerCase v = "false") := fun hh => h (by tauto)
    have h3 : ¬ (helper.LowerCase v = "naive") := fun hh => h (by tauto)
    refine DaosEngine.raises_of_setParameter E _ _ c P _
      ("Unknown BP5 AsyncWriteMode parameter \"" ++ helper.LowerCase v ++
        "\" (must be \"auto\", \"sync\", \"naive\", " ++ "\"throttled\" " ++
        "or \"guided\"") hdecl hfields ?_
    simp only [DaosEngine.setParameter, DaosEngine.lf_SetAsyncWriteParameter, hfind,
      LowerCase_idem, if_neg h1, if_neg h2, if_neg h3]
    rfl

/-- Witness of C2 on the sample table: `AsyncWrite` set to `GUIDED` resolves
to Guided (2 in the sample numbering) and `ParseParams` returns it, `off`
gives Sync (0), `bogus` throws `invalid_argument`. -/
theorem C2_async_write_mode_resolution_witness :
    DaosEngine.ResolvesTo sampleDecls 0 "daos" [("AsyncWrite", "GUIDED")] sampleParams
      (.AsyncWriteParameter "AsyncWrite" 0) (.int 2) ∧
    (DaosEngine.ParseParams sampleDecls 0 "daos" [("AsyncWrite", "GUIDED")] sampleParams).map
      (fun r => r.1 "AsyncWrite") = .ok (.int 2) ∧
    (DaosEngine.ParseParams sampleDecls 0 "daos" [("AsyncWrite", "off")] sampleParams).map
      (fun r => r.1 "AsyncWrite") = .ok (.int 0) ∧
    (DaosEngine.ParseParams sampleDecls 0 "daos" [("AsyncWrite", "bogus")] sampleParams).map
      (fun r => r.1 "AsyncWrite") = .error (.invalid_argument
        ("Unknown BP5 AsyncWriteMode parameter \"bogus\" (must be \"auto\", \"sync\", " ++
          "\"naive\", \"throttled\" or \"guided\"")) :=
  ⟨(C2_async_write_mode_resolution sampleDecls 0 "daos" [("AsyncWrite", "GUIDED")] sampleParams
      "AsyncWrite" 0 "AsyncWrite" "GUIDED" (by decide) (by decide) (by decide) (by decide)
      (by decide)).1 (by decide),
    by decide, by decide, by decide⟩

/-- C7: in a configuration whose only key equal to the key of a boolean
field up to letter case carries the value `v`, the field resolves to `true`
when the lower-cased `v` is `yes`, `true` or `on`, to `false` when it is `no`,
`false` or `off`, and for every other text the closure throws
`invalid_argument` and `ParseParams` returns no record. -/
theorem C7_boolean_parameter_resolution (E : Decls) (m_RankMPI : Int)
    (m_EngineType : String) (c : List (String × String)) (P : DAOSParams) (Param : String)
    (Default : Bool) (k v : String)
    (hdecl : ParamDecl.BoolParameter Param Default ∈ E.DAOS_FOREACH_PARAMETER_TYPE_4ARGS)
    (hfields : (E.DAOS_FOREACH_PARAMETER_TYPE_4ARGS.map ParamDecl.Param).Nodup)
    (hmem : (k, v) ∈ c) (hkey : helper.LowerCase k = helper.LowerCase Param)
    (honly : ∀ p ∈ c, helper.LowerCase p.1 = helper.LowerCase Param → p = (k, v)) :
    ((helper.LowerCase v = "yes" ∨ helper.LowerCase v = "true" ∨ helper.LowerCase v = "on") →
      DaosEngine.ResolvesTo E m_RankMPI m_EngineType c P
        (.BoolParameter Param Default) (.bool true)) ∧
    ((helper.LowerCase v = "no" ∨ helper.LowerCase v = "false" ∨
        helper.LowerCase v = "off") →
      DaosEngine.ResolvesTo E m_RankMPI m_EngineType c P
        (.BoolParameter Param Default) (.bool false)) ∧
    (¬ (helper.LowerCase v = "yes" ∨ helper.LowerCase v = "true" ∨
        helper.LowerCase v = "on" ∨ helper.LowerCase v = "no" ∨
        helper.LowerCase v = "false" ∨ helper.LowerCase v = "off") →
      DaosEngine.RaisesInvalidArgument E m_RankMPI m_EngineType c P
        (.BoolParameter Param Default)) := by
  have hfind := DaosEngine.params_lowercase_of_only c k v (helper.LowerCase Param) hmem hkey honly
  refine ⟨fun h => ?_, fun h => ?_, fun h => ?_⟩
  · apply DaosEngine.resolvesTo_of_setParameter E _ _ c P _ _ hdecl hfields
    simp only [DaosEngine.setParameter, DaosEngine.lf_SetBoolParameter, hfind,
      LowerCase_idem, if_pos h]
    rfl
  · have h1 : ¬ (helper.LowerCase v = "yes" ∨ helper.LowerCase v = "true" ∨
        helper.LowerCase v = "on") := by
      rcases h with h | h | h <;> rw [h] <;> decide
    apply DaosEngine.resolvesTo_of_setParameter E _ _ c P _ _ hdecl hfields
    simp only [DaosEngine.setParameter, DaosEngine.lf_SetBoolParameter, hfind,
      LowerCase_idem, if_neg h1, if_pos h]
    rfl
  · have h1 : ¬ (helper.LowerCase v = "yes" ∨ helper.LowerCase v = "true" ∨
        helper.LowerCase v = "on") := fun hh => h (by tauto)
    have h2 : ¬ (helper.LowerCase v = "no" ∨ helper.LowerCase v = "false" ∨
        helper.LowerCase v = "off") := fun hh => h (by tauto)
    refine DaosEngine.raises_of_setParameter E _ _ c P _
      ("Unknown BP5 Boolean parameter '" ++ helper.LowerCase v ++ "'") hdecl hfields ?_
    simp only [DaosEngine.setParameter, DaosEngine.lf_SetBoolParameter, hfind,
      LowerCase_idem, if_neg h1, if_neg h2]
    rfl

/-- Witness of C7 on the sample table: `DirectIO` set to `YES` resolves to
`true` and `ParseParams` returns it, `Off` gives `false`, `1` throws
`invalid_argument`. -/
theorem C7_boolean_parameter_resolution_witness :
    DaosEngine.ResolvesTo sampleDecls 0 "daos" [("directio", "YES")] sampleParams
      (.BoolParameter "DirectIO" false) (.bool true) ∧
    (DaosEngine.ParseParams sampleDecls 0 "daos" [("directio", "YES")] sampleParams).map
      (fun r => r.1 "DirectIO") = .ok (.bool true) ∧
    (DaosEngine.ParseParams sampleDecls 0 "daos" [("DIRECTIO", "Off")] sampleParams).map
      (fun r => r.1 "DirectIO") = .ok (.bool false) ∧
    (DaosEngine.ParseParams sampleDecls 0 "daos" [("DirectIO", "1")] sampleParams).map
      (fun r => r.1 "DirectIO")
        = .error (.invalid_argument "Unknown BP5 Boolean parameter '1'") :=
  ⟨(C7_boolean_parameter_resolution sampleDecls 0 "daos" [("directio", "YES")] sampleParams
      "DirectIO" false "directio" "YES" (by decide) (by decide) (by decide) (by decide)
      (by decide)).1 (by decide),
    by decide, by decide, by decide⟩

/-- C8: in a configuration whose only key equal to the aggregation-type key
up to letter case carries the value `v`, the field resolves to EveryoneWrites
when the lower-cased `v` is `everyonewrites` or `auto`, to
EveryoneWritesSerial when it is `everyonewritesserial`, to TwoLevelShm when
it is `twolevelshm`, and for every other `v` the closure throws
`invalid_argument` and `ParseParams` returns no record. -/
theorem C8_aggregation_type_resolution (E : Decls) (m_RankMPI : Int)
    (m_EngineType : String) (c : List (String × String)) (P : DAOSParams) (Param : String)
    (Default : Int) (k v : String)
    (hdecl : ParamDecl.AggregationTypeParameter Param Default
      ∈ E.DAOS_FOREACH_PARAMETER_TYPE_4ARGS)
    (hfields : (E.DAOS_FOREACH_PARAMETER_TYPE_4ARGS.map ParamDecl.Param).Nodup)
    (hmem : (k, v) ∈ c) (hkey : helper.LowerCase k = helper.LowerCase Param)
    (honly : ∀ p ∈ c, helper.LowerCase p.1 = helper.LowerCase Param → p = (k, v)) :
    ((helper.LowerCase v = "everyonewrites" ∨ helper.LowerCase v = "auto") →
      DaosEngine.ResolvesTo E m_RankMPI m_EngineType c P
        (.AggregationTypeParameter Param Default)
        (.int (E.castAggregationType .EveryoneWrites))) ∧
    (helper.LowerCase v = "everyonewritesserial" →
      DaosEngine.ResolvesTo E m_RankMPI m_EngineType c P
        (.AggregationTypeParameter Param Default)
        (.int (E.castAggregationType .EveryoneWritesSerial))) ∧
    (helper.LowerCase v = "twolevelshm" →
      DaosEngine.ResolvesTo E m_RankMPI m_EngineType c P
        (.AggregationTypeParameter Param Default)
        (.int (E.castAggregationType .TwoLevelShm))) ∧
    (¬ (helper.LowerCase v = "everyonewrites" ∨ helper.LowerCase v = "auto" ∨
        helper.LowerCase v = "everyonewritesserial" ∨
        helper.LowerCase v = "twolevelshm") →
      DaosEngine.RaisesInvalidArgument E m_RankMPI m_EngineType c P
        (.AggregationTypeParameter Param Default)) := by
  have hfind := DaosEngine.params_lowercase_of_only c k v (helper.LowerCase Param) hmem hkey honly
  refine ⟨fun h => ?_, fun h => ?_, fun h => ?_, fun h => ?_⟩
  · apply DaosEngine.resolvesTo_of_setParameter E _ _ c P _ _ hdecl hfields
    simp only [DaosEngine.setParameter, DaosEngine.lf_SetAggregationTypeParameter, hfind,
      LowerCase_idem, if_pos h]
    rfl
  · have h1 : ¬ (helper.LowerCase v = "everyonewrites" ∨ helper.LowerCase v = "auto") := by
      rw [h]; decide
    apply DaosEngine.resolvesTo_of_setParameter E _ _ c P _ _ hdecl hfields
    simp only [DaosEngine.setParameter, DaosEngine.lf_SetAggregationTypeParameter, hfind,
      LowerCase_idem, if_neg h1, if_pos h]
    rfl
  · have h1 : ¬ (helper.LowerCase v = "everyonewrites" ∨ helper.LowerCase v = "auto") := by
      rw [h]; decide
    have h2 : ¬ (helper.LowerCase v = "everyonewritesserial") := by
      rw [h]; decide
    apply DaosEngine.resolvesTo_of_setParameter E _ _ c P _ _ hdecl hfields
    simp only [DaosEngine.setParameter, DaosEngine.lf_SetAggregationTypeParameter, hfind,
      LowerCase_idem, if_neg h1, if_neg h2, if_pos h]
    rfl
  · have h1 : ¬ (helper.LowerCase v = "everyonewrites" ∨ helper.LowerCase v = "auto") :=
      fun hh => h (by tauto)
    have h2 : ¬ (helper.LowerCase v = "everyonewritesserial") := fun hh => h (by tauto)
    have h3 : ¬ (helper.LowerCase v = "twolevelshm") := fun hh => h (by tauto)
    refine DaosEngine.raises_of_setParameter E _ _ c P _
      ("Unknown BP5 AggregationType parameter \"" ++ helper.LowerCase v ++
        "\" (must be \"auto\", \"everyonewrites\" or " ++ "\"twolevelshm\"")
      hdecl hfields ?_
    simp only [DaosEngine.setParameter, DaosEngine.lf_SetAggregationTypeParameter, hfind,
      LowerCase_idem, if_neg h1, if_neg h2, if_neg h3]
    rfl

/-- Witness of C8 on the sample table: `AggregationType` set to `Auto`
resolves to EveryoneWrites (0 in the sample numbering), `TwoLevelShm` to
TwoLevelShm (2), `EveryoneWritesSerial` to EveryoneWritesSerial (1), and
`shm` throws. -/
theorem C8_aggregation_type_resolution_witness :
    DaosEngine.ResolvesTo sampleDecls 0 "daos" [("AggregationType", "Auto")] sampleParams
      (.AggregationTypeParameter "AggregationType" 2) (.int 0) ∧
    (DaosEngine.ParseParams sampleDecls 0 "daos" [("AggregationType", "Auto")]
      sampleParams).map (fun r => r.1 "AggregationType") = .ok (.int 0) ∧
    (DaosEngine.ParseParams sampleDecls 0 "daos" [("aggregationtype", "TwoLevelShm")]
      sampleParams).map (fun r => r.1 "AggregationType") = .ok (.int 2) ∧
    (DaosEngine.ParseParams sampleDecls 0 "daos" [("AGGREGATIONTYPE", "EveryoneWritesSerial")]
      sampleParams).map (fun r => r.1 "AggregationType") = .ok (.int 1) ∧
    (DaosEngine.ParseParams sampleDecls 0 "daos" [("AggregationType", "shm")]
      sampleParams).toBool = false :=
  ⟨(C8_aggregation_type_resolution sampleDecls 0 "daos" [("AggregationType", "Auto")]
      sampleParams "AggregationType" 2 "AggregationType" "Auto" (by decide) (by decide)
      (by decide) (by decide) (by decide)).1 (by decide),
    by decide, by decide, by decide, by decide⟩

/-- C9: in a configuration whose only key equal to the buffer-strategy key up
to letter case carries the value `v`, the field resolves to MallocVType when
the lower-cased `v` is `malloc`, to ChunkVType when it is `chunk`, and for
every other `v` the closure throws `invalid_argument` and `ParseParams`
returns no record. -/
theorem C9_buffer_strategy_resolution (E : Decls) (m_RankMPI : Int)
    (m_EngineType : String) (c : List (String × String)) (P : DAOSParams) (Param : String)
    (Default : Int) (k v : String)
    (hdecl : ParamDecl.BufferVTypeParameter Param Default
      ∈ E.DAOS_FOREACH_PARAMETER_TYPE_4ARGS)
    (hfields : (E.DAOS_FOREACH_PARAMETER_TYPE_4ARGS.map ParamDecl.Param).Nodup)
    (hmem : (k, v) ∈ c) (hkey : helper.LowerCase k = helper.LowerCase Param)
    (honly : ∀ p ∈ c, helper.LowerCase p.1 = helper.LowerCase Param → p = (k, v)) :
    (helper.LowerCase v = "malloc" →
      DaosEngine.ResolvesTo E m_RankMPI m_EngineType c P
        (.BufferVTypeParameter Param Default) (.int (E.castBufferVType .MallocVType))) ∧
    (helper.LowerCase v = "chunk" →
      DaosEngine.ResolvesTo E m_RankMPI m_EngineType c P
        (.BufferVTypeParameter Param Default) (.int (E.castBufferVType .ChunkVType))) ∧
    (¬ (helper.LowerCase v = "malloc" ∨ helper.LowerCase v = "chunk") →
      DaosEngine.RaisesInvalidArgument E m_RankMPI m_EngineType c P
        (.BufferVTypeParameter Param Default)) := by
  have hfind := DaosEngine.params_lowercase_of_only c k v (helper.LowerCase Param) hmem hkey honly
  refine ⟨fun h => ?_, fun h => ?_, fun h => ?_⟩
  · apply DaosEngine.resolvesTo_of_setParameter E _ _ c P _ _ hdecl hfields
    simp only [DaosEngine.setParameter, DaosEngine.lf_SetBufferVTypeParameter, hfind,
      LowerCase_idem, if_pos h]
    rfl
  · have h1 : ¬ (helper.LowerCase v = "malloc") := by
      rw [h]; decide
    apply DaosEngine.resolvesTo_of_setParameter E _ _ c P _ _ hdecl hfields
    simp only [DaosEngine.setParameter, DaosEngine.lf_SetBufferVTypeParameter, hfind,
      LowerCase_idem, if_neg h1, if_pos h]
    rfl
  · have h1 : ¬ (helper.LowerCase v = "malloc") := fun hh => h (Or.inl hh)
    have h2 : ¬ (helper.LowerCase v = "chunk") := fun hh => h (Or.inr hh)
    refine DaosEngine.raises_of_setParameter E _ _ c P _
      ("Unknown BP5 BufferVType parameter \"" ++ helper.LowerCase v ++
        "\" (must be \"malloc\" or \"chunk\"") hdecl hfields ?_
    simp only [DaosEngine.setParameter, DaosEngine.lf_SetBufferVTypeParameter, hfind,
      LowerCase_idem, if_neg h1, if_neg h2]
    rfl

/-- Witness of C9 on the sample table: `BufferVType` set to `MALLOC` resolves
to MallocVType (0 in the sample numbering), `Chunk` to ChunkVType (1), and
`heap` throws. -/
theorem C9_buffer_strategy_resolution_witness :
    DaosEngine.ResolvesTo sampleDecls 0 "daos" [("BufferVType", "MALLOC")] sampleParams
      (.BufferVTypeParameter "BufferVType" 1) (.int 0) ∧
    (DaosEngine.ParseParams sampleDecls 0 "daos" [("BufferVType", "MALLOC")]
      sampleParams).map (fun r => r.1 "BufferVType") = .ok (.int 0) ∧
    (DaosEngine.ParseParams sampleDecls 0 "daos" [("buffervtype", "Chunk")]
      sampleParams).map (fun r => r.1 "BufferVType") = .ok (.int 1) ∧
    (DaosEngine.ParseParams sampleDecls 0 "daos" [("BufferVType", "heap")]
      sampleParams).toBool = false :=
  ⟨(C9_buffer_strategy_resolution sampleDecls 0 "daos" [("BufferVType", "MALLOC")]
      sampleParams "BufferVType" 1 "BufferVType" "MALLOC" (by decide) (by decide)
      (by decide) (by decide) (by decide)).1 (by decide),
    by decide, by decide, by decide⟩

/-- C10: two configurations that differ only in the letter case of keys and
values (the lower-cased entries are the same up to their order, which the
case of the keys decides in a sorted map), neither with two keys equal up to
case, give the same outcome of `ParseParams`: the same record and output, or
the same exception. -/
theorem C10_configuration_case_insensitive (E : Decls) (m_RankMPI : Int)
    (m_EngineType : String) (c c' : List (String × String)) (P : DAOSParams)
    (hnd : (c.map (fun p => helper.LowerCase p.1)).Nodup)
    (hnd' : (c'.map (fun p => helper.LowerCase p.1)).Nodup)
    (hcase : (c.map (fun p => (helper.LowerCase p.1, helper.LowerCase p.2))).Perm
      (c'.map (fun p => (helper.LowerCase p.1, helper.LowerCase p.2)))) :
    DaosEngine.ParseParams E m_RankMPI m_EngineType c' P
      = DaosEngine.ParseParams E m_RankMPI m_EngineType c P := by
  have h := DaosEngine.params_lowercase_congr c c' hnd hnd' hcase
  simp only [DaosEngine.ParseParams, h]

/-- Witness of C10 on the sample table: `AsyncWrite = GUIDED`, `Verbose = 1`
and its re-cased form `VERBOSE = 1`, `asyncwrite = Guided` (each in the key
order of its map) give the same outcome, a record with Guided. -/
theorem C10_configuration_case_insensitive_witness :
    DaosEngine.ParseParams sampleDecls 0 "daos" [("VERBOSE", "1"), ("asyncwrite", "Guided")]
        sampleParams
      = DaosEngine.ParseParams sampleDecls 0 "daos" [("AsyncWrite", "GUIDED"), ("Verbose", "1")]
        sampleParams ∧
    (DaosEngine.ParseParams sampleDecls 0 "daos" [("VERBOSE", "1"), ("asyncwrite", "Guided")]
        sampleParams).map (fun r => (r.1 "AsyncWrite", r.1 "verbose", r.2.length))
      = .ok (.int 2, .int 1, 11) :=
  ⟨C10_configuration_case_insensitive sampleDecls 0 "daos"
      [("AsyncWrite", "GUIDED"), ("Verbose", "1")] [("VERBOSE", "1"), ("asyncwrite", "Guided")]
      sampleParams (by decide) (by decide) (by decide),
    by decide⟩

/-! ## Numeric parameters -/

/-- C11, as stated, fails: the text `12abc` is not a decimal integer, and
`ParseParams` returns a record all the same, with 12 in the `int` field
`verbose`, resp. in the `unsigned int` field `NumAggregators`. -/
theorem C11_counterexample :
    (DaosEngine.ParseParams sampleDecls 1 "daos" [("verbose", "12abc")] sampleParams).map
      (fun r => r.1 "verbose") = .ok (.int 12) ∧
    (DaosEngine.ParseParams sampleDecls 1 "daos" [("NumAggregators", "12abc")]
      sampleParams).map (fun r => r.1 "NumAggregators") = .ok (.uint 12) := by
  decide

/-- C11, amended: for an `int` or `unsigned int` field whose key is present
with the value `v`, a value that does not start, after white space and at
most one sign, with a decimal digit is a configuration error
(`invalid_argument`, no record is returned); a value that is the decimal
text of a number `n` that fits, followed by a character that is not a digit
and by anything else, is accepted and resolves to `n`. -/
theorem C11_numeric_text_needs_leading_integer (E : Decls) (m_RankMPI : Int)
    (m_EngineType : String) (c : List (String × String)) (P : DAOSParams) (Param : String)
    (k v : String)
    (hfields : (E.DAOS_FOREACH_PARAMETER_TYPE_4ARGS.map ParamDecl.Param).Nodup)
    (hmem : (k, v) ∈ c) (hkey : helper.LowerCase k = helper.LowerCase Param)
    (honly : ∀ p ∈ c, helper.LowerCase p.1 = helper.LowerCase Param → p = (k, v)) :
    (∀ Default, ParamDecl.IntParameter Param Default ∈ E.DAOS_FOREACH_PARAMETER_TYPE_4ARGS →
      (startsWithInteger (helper.LowerCase v).data = false →
        DaosEngine.RaisesInvalidArgument E m_RankMPI m_EngineType c P
          (.IntParameter Param Default)) ∧
      (∀ (n : Nat) (x : Char) (t : List Char),
        (helper.LowerCase v).data = (Nat.repr n).data ++ x :: t → x.isDigit = false →
        n ≤ 2147483647 →
        DaosEngine.ResolvesTo E m_RankMPI m_EngineType c P
          (.IntParameter Param Default) (.int n))) ∧
    (∀ Default, ParamDecl.UIntParameter Param Default ∈ E.DAOS_FOREACH_PARAMETER_TYPE_4ARGS →
      (startsWithInteger (helper.LowerCase v).data = false →
        DaosEngine.RaisesInvalidArgument E m_RankMPI m_EngineType c P
          (.UIntParameter Param Default)) ∧
      (∀ (n : Nat) (x : Char) (t : List Char),
        (helper.LowerCase v).data = (Nat.repr n).data ++ x :: t → x.isDigit = false →
        n ≤ 4294967295 →
        DaosEngine.ResolvesTo E m_RankMPI m_EngineType c P
          (.UIntParameter Param Default) (.uint n))) := by
  have hfind := DaosEngine.params_lowercase_of_only c k v (helper.LowerCase Param) hmem hkey honly
  refine ⟨fun Default hdecl => ⟨fun hbad => ?_, fun n x t hv hx hn => ?_⟩,
    fun Default hdecl => ⟨fun hbad => ?_, fun n x t hv hx hn => ?_⟩⟩
  · refine DaosEngine.raises_of_setParameter E _ _ c P _ "stoi" hdecl hfields ?_
    simp only [DaosEngine.setParameter, DaosEngine.lf_SetIntParameter, hfind, stoi,
      strtoSubject_eq_none _ hbad]
    rfl
  · apply DaosEngine.resolvesTo_of_setParameter E _ _ c P _ _ hdecl hfields
    have hsub : strtoSubject (helper.LowerCase v).data = some (false, n) := by
      rw [hv]
      exact strtoSubject_repr_append n (x :: t) (by simpa using hx)
    have hrange : ¬ ((n : Int) < -2147483648 ∨ 2147483647 < (n : Int)) := by omega
    simp only [DaosEngine.setParameter, DaosEngine.lf_SetIntParameter, hfind, stoi, hsub]
    simp only [Bool.false_eq_true, if_false, if_neg hrange]
    rfl
  · refine DaosEngine.raises_of_setParameter E _ _ c P _ "stoul" hdecl hfields ?_
    simp only [DaosEngine.setParameter, DaosEngine.lf_SetUIntParameter, hfind, stoul,
      strtoSubject_eq_none _ hbad]
    rfl
  · apply DaosEngine.resolvesTo_of_setParameter E _ _ c P _ _ hdecl hfields
    have hsub : strtoSubject (helper.LowerCase v).data = some (false, n) := by
      rw [hv]
      exact strtoSubject_repr_append n (x :: t) (by simpa using hx)
    have h1 : ¬ (18446744073709551615 < n) := by omega
    have h2 : ¬ (4294967295 < n) := by omega
    have h3 : n % 4294967296 = n := Nat.mod_eq_of_lt (by omega)
    simp only [DaosEngine.setParameter, DaosEngine.lf_SetUIntParameter, hfind, stoul, hsub]
    simp only [Bool.false_eq_true, if_false, if_neg h1, if_neg h2, h3]
    rfl

/-- Witness of the amended C11 on the sample table: `verbose` set to `12abc`
resolves to 12, and `verbose` set to `abc` throws `invalid_argument`. -/
theorem C11_numeric_text_needs_leading_integer_witness :
    DaosEngine.ResolvesTo sampleDecls 1 "daos" [("verbose", "12abc")] sampleParams
      (.IntParameter "verbose" 0) (.int 12) ∧
    (DaosEngine.ParseParams sampleDecls 1 "daos" [("verbose", "abc")] sampleParams).map
      (fun r => r.1 "verbose") = .error (.invalid_argument "stoi") :=
  ⟨((C11_numeric_text_needs_leading_integer sampleDecls 1 "daos" [("verbose", "12abc")]
      sampleParams "verbose" "verbose" "12abc" (by decide) (by decide) (by decide)
      (by decide)).1 0 (by decide)).2 12 'a' ['b', 'c'] (by decide) (by decide) (by decide),
    by decide⟩

/-- C12, as stated, fails: `18446744073709551616` is the decimal text of the
natural number `2^64`, and with it in the `unsigned int` field
`NumAggregators` the read of the number throws `out_of_range`; no record with
`2^32 - 1` in the field is returned. -/
theorem C12_counterexample :
    Nat.repr 18446744073709551616 = "18446744073709551616" ∧
    (DaosEngine.ParseParams sampleDecls 1 "daos"
        [("NumAggregators", "18446744073709551616")] sampleParams).map
      (fun r => r.1 "NumAggregators") = .error (.out_of_range "stoul") := by
  decide

/-- C12, amended: for an `unsigned int` field whose key is present with the
decimal text of a natural number `n`, the field resolves to
`min(n, 2^32 - 1)` when `n` is at most `2^64 - 1`, the largest
`unsigned long`, so a number above `2^32 - 1` gives `2^32 - 1` and not
`n mod 2^32`; for a larger `n` reading the number throws `out_of_range` and
`ParseParams` returns no record. -/
theorem C12_unsigned_saturates_within_unsigned_long (E : Decls) (m_RankMPI : Int)
    (m_EngineType : String) (c : List (String × String)) (P : DAOSParams) (Param : String)
    (Default : Nat) (k : String) (n : Nat)
    (hdecl : ParamDecl.UIntParameter Param Default ∈ E.DAOS_FOREACH_PARAMETER_TYPE_4ARGS)
    (hfields : (E.DAOS_FOREACH_PARAMETER_TYPE_4ARGS.map ParamDecl.Param).Nodup)
    (hmem : (k, Nat.repr n) ∈ c) (hkey : helper.LowerCase k = helper.LowerCase Param)
    (honly : ∀ p ∈ c, helper.LowerCase p.1 = helper.LowerCase Param → p = (k, Nat.repr n)) :
    (n ≤ 18446744073709551615 →
      DaosEngine.ResolvesTo E m_RankMPI m_EngineType c P
        (.UIntParameter Param Default) (.uint (min n 4294967295))) ∧
    (18446744073709551615 < n →
      DaosEngine.RaisesException E m_RankMPI m_EngineType c P
        (.UIntParameter Param Default) (.out_of_range "stoul")) := by
  have hfind := DaosEngine.params_lowercase_of_only c k (Nat.repr n) (helper.LowerCase Param)
    hmem hkey honly
  rw [LowerCase_repr] at hfind
  have hsub : strtoSubject (Nat.repr n).data = some (false, n) := by
    have h := strtoSubject_repr_append n [] (by simp)
    rwa [List.append_nil] at h
  refine ⟨fun hn => ?_, fun hn => ?_⟩
  · apply DaosEngine.resolvesTo_of_setParameter E _ _ c P _ _ hdecl hfields
    have h1 : ¬ (18446744073709551615 < n) := by omega
    simp only [DaosEngine.setParameter, DaosEngine.lf_SetUIntParameter, hfind, stoul, hsub]
    simp only [Bool.false_eq_true, if_false, if_neg h1]
    by_cases h2 : 4294967295 < n
    · have hmin : min n 4294967295 = 4294967295 := by omega
      simp only [if_pos h2, hmin]
      rfl
    · have hmin : min n 4294967295 = n := by omega
      have h3 : n % 4294967296 = n := Nat.mod_eq_of_lt (by omega)
      simp only [if_neg h2, hmin, h3]
      rfl
  · apply DaosEngine.raisesException_of_setParameter E _ _ c P _ _ hdecl hfields
    simp only [DaosEngine.setParameter, DaosEngine.lf_SetUIntParameter, hfind, stoul, hsub]
    simp only [if_pos hn]
    rfl

/-- Witness of the amended C12 on the sample table: `NumAggregators` set to
the decimal text of `2^32` resolves to `2^32 - 1`, not to 0. -/
theorem C12_unsigned_saturates_within_unsigned_long_witness :
    DaosEngine.ResolvesTo sampleDecls 1 "daos" [("NumAggregators", Nat.repr 4294967296)]
      sampleParams (.UIntParameter "NumAggregators" 0) (.uint (min 4294967296 4294967295)) ∧
    (DaosEngine.ParseParams sampleDecls 1 "daos" [("NumAggregators", "4294967296")]
      sampleParams).map (fun r => r.1 "NumAggregators") = .ok (.uint 4294967295) :=
  ⟨(C12_unsigned_saturates_within_unsigned_long sampleDecls 1 "daos"
      [("NumAggregators", Nat.repr 4294967296)] sampleParams "NumAggregators" 0
      "NumAggregators" 4294967296 (by decide) (by decide) (by decide) (by decide)
      (by decide)).1 (by decide),
    by decide⟩

/-! ## Lemmas on the tier loop -/

namespace MhsReader

/-- When every tier that remains defines the variable, the loop returns: it
has made, for each of these tiers in turn, the lookup and the `Get`, and the
buffer holds the value of the last of them (or is untouched when none
remains). -/
theorem tierLoop_defined {T : Type} (name : String) :
    ∀ (rest : List (Tier T)) (i : Nat) (s : ReadState T),
      (∀ t ∈ rest, ∃ v, t.store name = some v) →
      ∃ s', tierLoop name i rest s = .ok s' ∧
        s'.calls = s.calls ++ loopCalls name i rest.length ∧
        (rest = [] → s'.data = s.data) ∧
        (∀ hne : rest ≠ [], (rest.getLast hne).store name = some s'.data) := by
  intro rest
  induction rest with
  | nil =>
    intro i s _
    exact ⟨s, rfl, by simp [loopCalls], fun _ => rfl, fun hne => absurd rfl hne⟩
  | cons t rest ih =>
    intro i s hall
    obtain ⟨v, hv⟩ := hall t (List.mem_cons_self _ _)
    obtain ⟨s', hs', hcalls, hnil, hlast⟩ :=
      ih (i + 1) ⟨v, (s.calls ++ [Call.InquireVariable i name]) ++ [Call.Get i name]⟩
        (fun t' h => hall t' (List.mem_cons_of_mem _ h))
    refine ⟨s', ?_, ?_, ?_, ?_⟩
    · simp only [tierLoop, Tier.InquireVariable, Tier.Get, hv]
      exact hs'
    · rw [hcalls]
      simp [loopCalls]
    · intro h
      cases h
    · intro _
      by_cases hr : rest = []
      · have hd := hnil hr
        subst hr
        rw [List.getLast_singleton, hv, hd]
      · rw [List.getLast_cons hr]
        exact hlast hr

/-- When every tier defines the variable, `GetDeferredCommon` returns: it has
made the `Get` on tier 0 and then the rounds of the loop for the tiers from 1
on, and the buffer holds the value of the last tier. -/
theorem GetDeferredCommon_defined {T : Type} (tiers : List (Tier T)) (var0 : Variable)
    (s : ReadState T) (hne : tiers ≠ [])
    (hall : ∀ t ∈ tiers, ∃ v, t.store var0.m_Name = some v) :
    ∃ s', GetDeferredCommon tiers var0 s = .ok s' ∧
      s'.calls = s.calls ++ Call.Get 0 var0.m_Name ::
        loopCalls var0.m_Name 1 (tiers.length - 1) ∧
      (tiers.getLast hne).store var0.m_Name = some s'.data := by
  cases tiers with
  | nil => exact absurd rfl hne
  | cons t0 rest =>
    obtain ⟨v, hv⟩ := hall t0 (List.mem_cons_self _ _)
    obtain ⟨s', hs', hcalls, hnil, hlast⟩ :=
      tierLoop_defined var0.m_Name rest 1 ⟨v, s.calls ++ [Call.Get 0 var0.m_Name]⟩
        (fun t' h => hall t' (List.mem_cons_of_mem _ h))
    refine ⟨s', ?_, ?_, ?_⟩
    · simp only [GetDeferredCommon, Tier.Get, hv]
      exact hs'
    · rw [hcalls]
      simp
    · by_cases hr : rest = []
      · have hd := hnil hr
        subst hr
        rw [List.getLast_singleton, hv, hd]
      · rw [List.getLast_cons hr]
        exact hlast hr

/-- The `Get` calls of the rounds of the loop go to the tiers `i`, `i + 1`,
... in this order, one each. -/
theorem getTier_loopCalls (name : String) : ∀ (k i : Nat),
    (loopCalls name i k).filterMap Call.getTier? = List.range' i k := by
  intro k
  induction k with
  | zero => intro i; rfl
  | succ k ih =>
    intro i
    simp [loopCalls, Call.getTier?, List.range'_succ, ih (i + 1)]

/-- The lookups of the rounds of the loop go to the tiers `i`, `i + 1`, ...
in this order, one each. -/
theorem inquireTier_loopCalls (name : String) : ∀ (k i : Nat),
    (loopCalls name i k).filterMap Call.inquireTier? = List.range' i k := by
  intro k
  induction k with
  | zero => intro i; rfl
  | succ k ih =>
    intro i
    simp [loopCalls, Call.inquireTier?, List.range'_succ, ih (i + 1)]

end MhsReader

/-! ## Tiered read, continued -/

/-- C13: for a text variable that tier 0 defines with the value `v`, the
deferred and the sync read return with `v` in the destination, after exactly
one call, the `Get` on sub-engine 0, whatever the further tiers are. -/
theorem C13_text_variable_read_from_tier_0 (t0 : MhsReader.Tier String)
    (rest : List (MhsReader.Tier String)) (var0 : MhsReader.Variable)
    (s : MhsReader.ReadState String) (v : String)
    (h0 : t0.store var0.m_Name = some v) :
    MhsReader.GetDeferredCommonString (t0 :: rest) var0 s
        = .ok ⟨v, s.calls ++ [MhsReader.Call.Get 0 var0.m_Name]⟩ ∧
    MhsReader.GetSyncCommonString (t0 :: rest) var0 s
        = .ok ⟨v, s.calls ++ [MhsReader.Call.Get 0 var0.m_Name]⟩ := by
  have hd : MhsReader.GetDeferredCommonString (t0 :: rest) var0 s
      = .ok ⟨v, s.calls ++ [MhsReader.Call.Get 0 var0.m_Name]⟩ := by
    simp only [MhsReader.GetDeferredCommonString, MhsReader.Tier.Get, h0]
  refine ⟨hd, ?_⟩
  simp only [MhsReader.GetSyncCommonString, hd, MhsReader.PerformGets]

/-- Witness of C13 on the text tiers: tier 0 has `s = a`, tier 1 has `s = b`;
the read of `s` gives `a` after the one call `Get` on tier 0. -/
theorem C13_text_variable_read_from_tier_0_witness :
    MhsReader.GetDeferredCommonString MhsReader.textTiers ⟨"s"⟩ ⟨"", []⟩
        = .ok ⟨"a", [] ++ [MhsReader.Call.Get 0 "s"]⟩ ∧
    MhsReader.GetSyncCommonString MhsReader.textTiers ⟨"s"⟩ ⟨"", []⟩
        = .ok ⟨"a", [] ++ [MhsReader.Call.Get 0 "s"]⟩ :=
  C13_text_variable_read_from_tier_0 (MhsReader.Tier.ofList [("s", "a")])
    [MhsReader.Tier.ofList [("s", "b")], MhsReader.Tier.ofList []] ⟨"s"⟩ ⟨"", []⟩ "a"
    (by decide)

/-- C14, as stated, fails: on one tier with `x = 1` and a buffer that holds
0, `GetDeferredCommon` alone, with no `PerformGets` after it, returns with 1
in the buffer and has issued the `Get` to tier 0. -/
theorem C14_counterexample :
    (MhsReader.GetDeferredCommon [MhsReader.Tier.ofList [("x", (1 : Int))]] ⟨"x"⟩
        ⟨0, []⟩).map (fun s => (s.data, s.calls))
      = .ok (1, [MhsReader.Call.Get 0 "x"]) ∧
    (MhsReader.GetDeferredCommon [MhsReader.Tier.ofList [("x", (1 : Int))]] ⟨"x"⟩
        ⟨0, []⟩).map (fun s => (s.data, s.calls))
      ≠ .ok (0, []) := by
  decide

/-- C14, amended: `GetDeferredCommon` runs the read at once: when every tier
defines the variable it returns having issued the `Get` to tier 0 and, after
a lookup each, to every further tier, with the value of the last tier in the
destination buffer; the sync read, which adds `PerformGets`, ends in the same
state. -/
theorem C14_deferred_read_runs_at_once {T : Type} (tiers : List (MhsReader.Tier T))
    (var0 : MhsReader.Variable) (s : MhsReader.ReadState T) (hne : tiers ≠ [])
    (hall : ∀ t ∈ tiers, (t.store var0.m_Name).isSome = true) :
    ∃ s', MhsReader.GetDeferredCommon tiers var0 s = .ok s' ∧
      (tiers.getLast hne).store var0.m_Name = some s'.data ∧
      s'.calls = s.calls ++ MhsReader.Call.Get 0 var0.m_Name ::
        MhsReader.loopCalls var0.m_Name 1 (tiers.length - 1) ∧
      MhsReader.GetSyncCommon tiers var0 s = .ok s' := by
  obtain ⟨s', hs', hcalls, hlast⟩ := MhsReader.GetDeferredCommon_defined tiers var0 s hne
    (fun t ht => Option.isSome_iff_exists.mp (hall t ht))
  refine ⟨s', hs', hlast, hcalls, ?_⟩
  simp only [MhsReader.GetSyncCommon, hs', MhsReader.PerformGets]

/-- Witness of the amended C14 on the three tiers with `x` = 1, 2, 3. -/
theorem C14_deferred_read_runs_at_once_witness :
    (∃ s', MhsReader.GetDeferredCommon MhsReader.definedTiers ⟨"x"⟩ ⟨0, []⟩ = .ok s' ∧
      (MhsReader.definedTiers.getLast (List.cons_ne_nil _ _)).store "x" = some s'.data ∧
      s'.calls = [] ++ MhsReader.Call.Get 0 "x" ::
        MhsReader.loopCalls "x" 1 (MhsReader.definedTiers.length - 1) ∧
      MhsReader.GetSyncCommon MhsReader.definedTiers ⟨"x"⟩ ⟨0, []⟩ = .ok s') ∧
    (MhsReader.GetDeferredCommon MhsReader.definedTiers ⟨"x"⟩ ⟨0, []⟩).map
      (fun s => s.data) = .ok 3 :=
  ⟨C14_deferred_read_runs_at_once MhsReader.definedTiers ⟨"x"⟩ ⟨0, []⟩
      (List.cons_ne_nil _ _) (by decide),
    by decide⟩

/-- C18: when every one of the `T >= 1` tiers defines the variable, the sync
read returns with the value of the last tier, tier `T - 1`, in the
destination buffer; with one tier this is the value of tier 0 and the only
call made is the `Get` on tier 0, no lookup by name. -/
theorem C18_last_tier_wins {T : Type} (tiers : List (MhsReader.Tier T))
    (var0 : MhsReader.Variable) (s : MhsReader.ReadState T) (hne : tiers ≠ [])
    (hall : ∀ t ∈ tiers, (t.store var0.m_Name).isSome = true) :
    ∃ s', MhsReader.GetSyncCommon tiers var0 s = .ok s' ∧
      (tiers.getLast hne).store var0.m_Name = some s'.data ∧
      (tiers.length = 1 →
        (tiers.head hne).store var0.m_Name = some s'.data ∧
        s'.calls = s.calls ++ [MhsReader.Call.Get 0 var0.m_Name]) := by
  obtain ⟨s', hs', hcalls, hlast⟩ := MhsReader.GetDeferredCommon_defined tiers var0 s hne
    (fun t ht => Option.isSome_iff_exists.mp (hall t ht))
  refine ⟨s', ?_, hlast, ?_⟩
  · simp only [MhsReader.GetSyncCommon, hs', MhsReader.PerformGets]
  · intro h1
    constructor
    · match tiers, hne, h1, hlast with
      | [t0], _, _, hlast => exact hlast
    · rw [hcalls, h1]
      rfl

/-- Witness of C18 on the three tiers with `x` = 1, 2, 3: the read gives
3. -/
theorem C18_last_tier_wins_witness :
    (∃ s', MhsReader.GetSyncCommon MhsReader.definedTiers ⟨"x"⟩ ⟨0, []⟩ = .ok s' ∧
      (MhsReader.definedTiers.getLast (List.cons_ne_nil _ _)).store "x" = some s'.data ∧
      (MhsReader.definedTiers.length = 1 →
        (MhsReader.definedTiers.head (List.cons_ne_nil _ _)).store "x" = some s'.data ∧
        s'.calls = [] ++ [MhsReader.Call.Get 0 "x"])) ∧
    (MhsReader.GetSyncCommon MhsReader.definedTiers ⟨"x"⟩ ⟨0, []⟩).map
      (fun s => s.data) = .ok 3 ∧
    (MhsReader.GetSyncCommon (MhsReader.definedTiers.take 1) ⟨"x"⟩ ⟨0, []⟩).map
      (fun s => (s.data, s.calls)) = .ok (1, [MhsReader.Call.Get 0 "x"]) :=
  ⟨C18_last_tier_wins MhsReader.definedTiers ⟨"x"⟩ ⟨0, []⟩ (List.cons_ne_nil _ _)
      (by decide),
    by decide, by decide⟩

/-- C19: when every one of the `T >= 1` tiers defines the variable, one sync
read makes its `Get` calls on the tiers 0, 1, ..., `T - 1` in this order, one
per tier; its lookups go to the tiers 1, ..., `T - 1`, and the whole sequence
of calls is the `Get` on tier 0 followed, for each further tier in turn, by
the lookup in that tier and the `Get` on that tier. -/
theorem C19_tier_read_order {T : Type} (tiers : List (MhsReader.Tier T))
    (var0 : MhsReader.Variable) (d : T) (hne : tiers ≠ [])
    (hall : ∀ t ∈ tiers, (t.store var0.m_Name).isSome = true) :
    ∃ s', MhsReader.GetSyncCommon tiers var0 ⟨d, []⟩ = .ok s' ∧
      s'.calls.filterMap MhsReader.Call.getTier? = List.range tiers.length ∧
      s'.calls.filterMap MhsReader.Call.inquireTier? = List.range' 1 (tiers.length - 1) ∧
      s'.calls = MhsReader.Call.Get 0 var0.m_Name ::
        MhsReader.loopCalls var0.m_Name 1 (tiers.length - 1) := by
  obtain ⟨s', hs', hcalls, _⟩ := MhsReader.GetDeferredCommon_defined tiers var0 ⟨d, []⟩ hne
    (fun t ht => Option.isSome_iff_exists.mp (hall t ht))
  have hc : s'.calls = MhsReader.Call.Get 0 var0.m_Name ::
      MhsReader.loopCalls var0.m_Name 1 (tiers.length - 1) := by
    rw [hcalls]
    rfl
  have hlen : tiers.length = (tiers.length - 1) + 1 := by
    have := List.length_pos.mpr hne
    omega
  refine ⟨s', ?_, ?_, ?_, hc⟩
  · simp only [MhsReader.GetSyncCommon, hs', MhsReader.PerformGets]
  · rw [hc, List.filterMap_cons]
    simp only [MhsReader.Call.getTier?, MhsReader.getTier_loopCalls]
    conv_rhs => rw [hlen, List.range_eq_range', List.range'_succ]
  · rw [hc, List.filterMap_cons]
    simp only [MhsReader.Call.inquireTier?, MhsReader.inquireTier_loopCalls]

/-- Witness of C19 on the three tiers with `x` = 1, 2, 3: the calls are
`Get` 0, lookup 1, `Get` 1, lookup 2, `Get` 2. -/
theorem C19_tier_read_order_witness :
    (∃ s', MhsReader.GetSyncCommon MhsReader.definedTiers ⟨"x"⟩ ⟨0, []⟩ = .ok s' ∧
      s'.calls.filterMap MhsReader.Call.getTier? = List.range MhsReader.definedTiers.length ∧
      s'.calls.filterMap MhsReader.Call.inquireTier?
        = List.range' 1 (MhsReader.definedTiers.length - 1) ∧
      s'.calls = MhsReader.Call.Get 0 "x" ::
        MhsReader.loopCalls "x" 1 (MhsReader.definedTiers.length - 1)) ∧
    (MhsReader.GetSyncCommon MhsReader.definedTiers ⟨"x"⟩ ⟨0, []⟩).map (fun s => s.calls)
      = .ok [.Get 0 "x", .InquireVariable 1 "x", .Get 1 "x", .InquireVariable 2 "x",
          .Get 2 "x"] :=
  ⟨C19_tier_read_order MhsReader.definedTiers ⟨"x"⟩ 0 (List.cons_ne_nil _ _) (by decide),
    by decide⟩

/-! ## Lemmas on the second pass over the parameter table -/

namespace DaosEngine

/-- The record `get_params` returns does not depend on the record it starts
from, except in the fields the table does not name. -/
theorem get_params_agree (E : Decls) (m : StrMap) :
    ∀ (tbl : List ParamDecl) (A A' B : DAOSParams), get_params E m tbl A = .ok A' →
      ∃ B', get_params E m tbl B = .ok B' ∧
        ∀ q, B' q = if q ∈ tbl.map ParamDecl.Param then A' q else B q := by
  intro tbl
  induction tbl with
  | nil =>
    intro A A' B _
    exact ⟨B, rfl, fun q => by simp⟩
  | cons d rest ih =>
    intro A A' B hA
    cases hd : setParameter E m d with
    | error e => simp [get_params, hd] at hA
    | ok v =>
      simp only [get_params, hd] at hA
      obtain ⟨B', hB', hq⟩ := ih (A.set d.Param v) A' (B.set d.Param v) hA
      obtain ⟨A'', hA'', hqA⟩ := ih (A.set d.Param v) A' (A.set d.Param v) hA
      have hAA : A'' = A' := by
        rw [hA] at hA''
        exact (Except.ok.inj hA'').symm
      refine ⟨B', by simp only [get_params, hd]; exact hB', ?_⟩
      intro q
      rw [hq q]
      by_cases hmem : q ∈ rest.map ParamDecl.Param
      · simp [hmem]
      · by_cases hqd : q = d.Param
        · have h1 := hqA q
          rw [hAA, if_neg hmem] at h1
          have hmem2 : q ∈ (d :: rest).map ParamDecl.Param := by
            rw [hqd]
            exact List.mem_map.mpr ⟨d, List.mem_cons_self _ _, rfl⟩
          rw [if_neg hmem, if_pos hmem2, h1]
          simp [DAOSParams.set, hqd]
        · have hmem2 : ¬ q ∈ (d :: rest).map ParamDecl.Param := by
            rw [List.map_cons, List.mem_cons]
            exact fun h => h.elim hqd hmem
          rw [if_neg hmem, if_neg hmem2]
          simp [DAOSParams.set, hqd]

/-- A second pass over the table, from the record the first pass returned,
returns that record again. -/
theorem get_params_idem (E : Decls) (m : StrMap) (tbl : List ParamDecl) (P P1 : DAOSParams)
    (h : get_params E m tbl P = .ok P1) : get_params E m tbl P1 = .ok P1 := by
  obtain ⟨B', hB', hq⟩ := get_params_agree E m tbl P P1 P1 h
  have hB : B' = P1 := by
    funext q
    rw [hq q]
    simp
  rw [hB] at hB'
  exact hB'

/-- When the first pass returns the record `P1`, `ParseParams` returns `P1`,
on every rank and for every engine type. -/
theorem ParseParams_of_get_params (E : Decls) (c : List (String × String))
    (P P1 : DAOSParams)
    (h : get_params E (params_lowercase c) E.DAOS_FOREACH_PARAMETER_TYPE_4ARGS P = .ok P1)
    (m_RankMPI : Int) (m_EngineType : String) :
    ∃ out, ParseParams E m_RankMPI m_EngineType c P = .ok (P1, out) := by
  by_cases hv : (verbosePositive P1 && decide (m_RankMPI = 0)) = true
  · obtain ⟨out', hpr⟩ :=
      (print_params_of_get_params E (params_lowercase c) m_RankMPI
        E.DAOS_FOREACH_PARAMETER_TYPE_4ARGS P1 [OutLine.header m_EngineType]).2 P1
        (get_params_idem E _ _ P P1 h)
    exact ⟨out' ++ [OutLine.footer], by simp only [ParseParams, h, hv, if_true, hpr]⟩
  · exact ⟨[], by simp only [ParseParams, h, hv]; rfl⟩

/-- The record `ParseParams` returns is the record of the first pass. -/
theorem get_params_of_ParseParams (E : Decls) (m_RankMPI : Int) (m_EngineType : String)
    (c : List (String × String)) (P R : DAOSParams) (out : List OutLine)
    (h : ParseParams E m_RankMPI m_EngineType c P = .ok (R, out)) :
    get_params E (params_lowercase c) E.DAOS_FOREACH_PARAMETER_TYPE_4ARGS P = .ok R := by
  cases hg : get_params E (params_lowercase c) E.DAOS_FOREACH_PARAMETER_TYPE_4ARGS P with
  | error e =>
    simp only [ParseParams, hg] at h
    cases h
  | ok P1 =>
    obtain ⟨out', hp⟩ := ParseParams_of_get_params E c P P1 hg m_RankMPI m_EngineType
    rw [hp] at h
    have := Except.ok.inj h
    rw [(Prod.mk.inj this).1]

/-- On rank 0 the second pass appends one line per line of the table, in the
order of the table, each with the field name, the value the closure call
assigns and the default. -/
theorem print_params_output (E : Decls) (m : StrMap) :
    ∀ (tbl : List ParamDecl) (P P' : DAOSParams) (out0 out' : List OutLine),
      print_params E m 0 tbl P out0 = .ok (P', out') →
      ∃ lines, out' = out0 ++ lines ∧
        List.Forall₂ (fun d l => ∃ x, setParameter E m d = .ok x ∧
          l = OutLine.param d.Param x d.Default) tbl lines := by
  intro tbl
  induction tbl with
  | nil =>
    intro P P' out0 out' h
    simp only [print_params, Except.ok.injEq, Prod.mk.injEq] at h
    exact ⟨[], by simp [h.2], List.Forall₂.nil⟩
  | cons d rest ih =>
    intro P P' out0 out' h
    cases hd : setParameter E m d with
    | error e => simp [print_params, hd] at h
    | ok v =>
      simp only [print_params, hd, if_true] at h
      obtain ⟨lines, hl, hf⟩ := ih _ _ _ _ h
      refine ⟨OutLine.param d.Param v d.Default :: lines, ?_, List.Forall₂.cons ⟨v, hd, rfl⟩ hf⟩
      rw [hl]
      simp [DAOSParams.set]

end DaosEngine

/-! ## Naming across processes, verbose diagnostics, transport index -/

/-- C15: the substream name is the same for a reader and for a writer, and
each of the five naming functions returns, for the same arguments, the same
path on any two engines, whatever their rank and group size (and, for the
substream name, whatever the reader flag of each). -/
theorem C15_naming_same_for_every_process (e1 e2 : DaosEngine.Members) (r : String)
    (n : Nat) (hasSubFiles isReader1 isReader2 : Bool) :
    DaosEngine.GetBPSubStreamName r n hasSubFiles true
        = DaosEngine.GetBPSubStreamName r n hasSubFiles false ∧
    e1.GetBPSubStreamName r n hasSubFiles isReader1
        = e2.GetBPSubStreamName r n hasSubFiles isReader2 ∧
    e1.GetBPMetadataFileName r = e2.GetBPMetadataFileName r ∧
    e1.GetBPMetaMetadataFileName r = e2.GetBPMetaMetadataFileName r ∧
    e1.GetBPMetadataIndexFileName r = e2.GetBPMetadataIndexFileName r ∧
    e1.GetBPVersionFileName r = e2.GetBPVersionFileName r :=
  ⟨rfl, rfl, rfl, rfl, rfl, rfl⟩

/-- C16: when `ParseParams` returns the record `R`, `R` is the record of the
one pass `get_params`; the pass `print_params` of the verbose block, started
from `R` on any rank, returns `R` again and throws nothing; and on every
rank, whether the verbose block runs there or not, `ParseParams` returns the
same record `R`. -/
theorem C16_verbose_block_changes_no_field (E : Decls) (m_RankMPI : Int)
    (m_EngineType : String) (c : List (String × String)) (P R : DAOSParams)
    (out : List DaosEngine.OutLine)
    (hacc : DaosEngine.ParseParams E m_RankMPI m_EngineType c P = .ok (R, out)) :
    DaosEngine.get_params E (DaosEngine.params_lowercase c)
        E.DAOS_FOREACH_PARAMETER_TYPE_4ARGS P = .ok R ∧
    (∀ (rank : Int) (out0 : List DaosEngine.OutLine),
      ∃ out1, DaosEngine.print_params E (DaosEngine.params_lowercase c) rank
        E.DAOS_FOREACH_PARAMETER_TYPE_4ARGS R out0 = .ok (R, out1)) ∧
    (∀ (rank : Int) (engineType : String),
      ∃ out1, DaosEngine.ParseParams E rank engineType c P = .ok (R, out1)) := by
  have hg := DaosEngine.get_params_of_ParseParams E m_RankMPI m_EngineType c P R out hacc
  refine ⟨hg, fun rank out0 => ?_, fun rank engineType => ?_⟩
  · exact (DaosEngine.print_params_of_get_params E _ rank _ R out0).2 R
      (DaosEngine.get_params_idem E _ _ P R hg)
  · exact DaosEngine.ParseParams_of_get_params E c P R hg rank engineType

/-- Witness of C16 on the sample table: with `verbose` set to 1 on rank 0
the verbose block runs, `ParseParams` returns a record, and on rank 1, where
the block does not run, the fields are the same. -/
theorem C16_verbose_block_changes_no_field_witness :
    (∃ R out, DaosEngine.ParseParams sampleDecls 0 "daos" [("verbose", "1")] sampleParams
        = .ok (R, out) ∧
      DaosEngine.get_params sampleDecls (DaosEngine.params_lowercase [("verbose", "1")])
        sampleDecls.DAOS_FOREACH_PARAMETER_TYPE_4ARGS sampleParams = .ok R ∧
      ∀ (rank : Int) (engineType : String),
        ∃ out1, DaosEngine.ParseParams sampleDecls rank engineType [("verbose", "1")]
          sampleParams = .ok (R, out1)) ∧
    (DaosEngine.ParseParams sampleDecls 0 "daos" [("verbose", "1")] sampleParams).map
        (fun r => (r.1 "verbose", r.1 "AsyncWrite", r.1 "NumAggregators", r.2.length))
      = .ok (.int 1, .int 0, .uint 0, 11) ∧
    (DaosEngine.ParseParams sampleDecls 1 "daos" [("verbose", "1")] sampleParams).map
        (fun r => (r.1 "verbose", r.1 "AsyncWrite", r.1 "NumAggregators", r.2.length))
      = .ok (.int 1, .int 0, .uint 0, 0) := by
  refine ⟨?_, by decide, by decide⟩
  cases h : DaosEngine.ParseParams sampleDecls 0 "daos" [("verbose", "1")] sampleParams with
  | error e =>
    have hb : (DaosEngine.ParseParams sampleDecls 0 "daos" [("verbose", "1")]
        sampleParams).toBool = true := by decide
    rw [h] at hb
    cases hb
  | ok r =>
    have hC := C16_verbose_block_changes_no_field sampleDecls 0 "daos" [("verbose", "1")]
      sampleParams r.1 r.2 h
    exact ⟨r.1, r.2, rfl, hC.1, hC.2.2⟩

/-- C17: with debug mode on and `n` transports, `CheckTransportIndex`
accepts the index `i` exactly when `i = -1` or `0 <= i <= n - 1` and throws
the usage error for every other `i`, that is for `i < -1` and for `i >= n`;
`Close` returns, resp. throws, for the same indices. -/
theorem C17_transport_index_bounds (m_Transports : List Engine.Transport) (i : Int) :
    (Engine.CheckTransportIndex true m_Transports i = .ok () ↔
      (i = -1 ∨ (0 ≤ i ∧ i ≤ (m_Transports.length : Int) - 1))) ∧
    (Engine.CheckTransportIndex true m_Transports i
        = .error (.transportIndexOutOfRange i) ↔
      (i < -1 ∨ (m_Transports.length : Int) ≤ i)) ∧
    ((∃ ts, Engine.Close true m_Transports i = .ok ts) ↔
      (i = -1 ∨ (0 ≤ i ∧ i ≤ (m_Transports.length : Int) - 1))) ∧
    (Engine.Close true m_Transports i = .error (.transportIndexOutOfRange i) ↔
      (i < -1 ∨ (m_Transports.length : Int) ≤ i)) := by
  by_cases h : i < -1 ∨ (m_Transports.length : Int) - 1 < i
  · have hc : Engine.CheckTransportIndex true m_Transports i
        = .error (.transportIndexOutOfRange i) := by
      simp only [Engine.CheckTransportIndex, if_true, if_pos h]
    have hcl : Engine.Close true m_Transports i = .error (.transportIndexOutOfRange i) := by
      simp only [Engine.Close, hc]
    rw [hc, hcl]
    refine ⟨⟨fun h' => ?_, fun h' => by omega⟩, ⟨fun _ => by omega, fun _ => rfl⟩,
      ⟨fun h' => ?_, fun h' => by omega⟩, ⟨fun _ => by omega, fun _ => rfl⟩⟩
    · cases h'
    · obtain ⟨ts, hts⟩ := h'
      cases hts
  · have hc : Engine.CheckTransportIndex true m_Transports i = .ok () := by
      simp only [Engine.CheckTransportIndex, if_true, if_neg h]
    have hcl : ∃ ts, Engine.Close true m_Transports i = .ok ts := by
      simp only [Engine.Close, hc]
      by_cases hi : i = -1
      · exact ⟨_, by rw [if_pos hi]⟩
      · exact ⟨_, by rw [if_neg hi]⟩
    refine ⟨⟨fun _ => by omega, fun _ => hc⟩, ⟨fun h' => ?_, fun h' => by omega⟩,
      ⟨fun _ => by omega, fun _ => hcl⟩, ⟨fun h' => ?_, fun h' => by omega⟩⟩
    · rw [hc] at h'
      cases h'
    · obtain ⟨ts, hts⟩ := hcl
      rw [hts] at h'
      cases h'

/-- C20: when `ParseParams` returns the record `R`, it has written the
listing (the header, one line per line of the parameter table, the footer)
when the verbose level in `R` is above 0 and the rank is 0, and it has
written nothing in every other case: on every rank other than 0, and for a
verbose level of 0 or less on any rank. -/
theorem C20_diagnostics_on_rank_0_only (E : Decls) (m_RankMPI : Int)
    (m_EngineType : String) (c : List (String × String)) (P R : DAOSParams)
    (out : List DaosEngine.OutLine)
    (hacc : DaosEngine.ParseParams E m_RankMPI m_EngineType c P = .ok (R, out)) :
    ((DaosEngine.verbosePositive R = true ∧ m_RankMPI = 0) →
      ∃ lines, out = DaosEngine.OutLine.header m_EngineType :: lines
          ++ [DaosEngine.OutLine.footer] ∧
        List.Forall₂ (fun d l => ∃ x,
            DaosEngine.setParameter E (DaosEngine.params_lowercase c) d = .ok x ∧
            l = DaosEngine.OutLine.param d.Param x d.Default)
          E.DAOS_FOREACH_PARAMETER_TYPE_4ARGS lines) ∧
    (¬ (DaosEngine.verbosePositive R = true ∧ m_RankMPI = 0) → out = []) := by
  have hg := DaosEngine.get_params_of_ParseParams E m_RankMPI m_EngineType c P R out hacc
  constructor
  · rintro ⟨hv, hr⟩
    subst hr
    obtain ⟨out1, hpr⟩ := (DaosEngine.print_params_of_get_params E
      (DaosEngine.params_lowercase c) 0 E.DAOS_FOREACH_PARAMETER_TYPE_4ARGS R
      [DaosEngine.OutLine.header m_EngineType]).2 R (DaosEngine.get_params_idem E _ _ P R hg)
    obtain ⟨lines, hl, hf⟩ := DaosEngine.print_params_output E _ _ _ _ _ _ hpr
    refine ⟨lines, ?_, hf⟩
    simp only [DaosEngine.ParseParams, hg, hv, decide_True, Bool.and_self, if_true, hpr,
      Except.ok.injEq, Prod.mk.injEq, true_and] at hacc
    rw [← hacc, hl]
    rfl
  · intro hn
    have hcond : ¬ ((DaosEngine.verbosePositive R && decide (m_RankMPI = 0)) = true) := by
      intro hc
      rw [Bool.and_eq_true, decide_eq_true_eq] at hc
      exact hn hc
    rw [Bool.not_eq_true] at hcond
    simp only [DaosEngine.ParseParams, hg, hcond, Bool.false_eq_true, if_false,
      Except.ok.injEq, Prod.mk.injEq, true_and] at hacc
    exact hacc.symm

/-- Witness of C20 on the sample table with `verbose` set to 1: rank 0
writes the header, the nine parameter lines and the footer, rank 1 writes
nothing, and with `verbose` left at 0 rank 0 writes nothing. -/
theorem C20_diagnostics_on_rank_0_only_witness :
    (∃ R out, DaosEngine.ParseParams sampleDecls 0 "daos" [("verbose", "1")] sampleParams
        = .ok (R, out) ∧
      ((DaosEngine.verbosePositive R = true ∧ (0 : Int) = 0) →
        ∃ lines, out = DaosEngine.OutLine.header "daos" :: lines
            ++ [DaosEngine.OutLine.footer] ∧
          List.Forall₂ (fun d l => ∃ x,
              DaosEngine.setParameter sampleDecls
                (DaosEngine.params_lowercase [("verbose", "1")]) d = .ok x ∧
              l = DaosEngine.OutLine.param d.Param x d.Default)
            sampleDecls.DAOS_FOREACH_PARAMETER_TYPE_4ARGS lines)) ∧
    (DaosEngine.ParseParams sampleDecls 0 "daos" [("verbose", "1")] sampleParams).map
        (fun r => r.2)
      = .ok [.header "daos", .param "OpenTimeoutSecs" (.float ⟨0⟩) (.float ⟨0⟩),
          .param "DirectIO" (.bool false) (.bool false),
          .param "BurstBufferPath" (.string "") (.string ""),
          .param "verbose" (.int 1) (.int 0), .param "NumAggregators" (.uint 0) (.uint 0),
          .param "AggregationType" (.int 2) (.int 2), .param "AsyncWrite" (.int 0) (.int 0),
          .param "InitialBufferSize" (.size 16777216) (.size 16777216),
          .param "BufferVType" (.int 1) (.int 1), .footer] ∧
    (DaosEngine.ParseParams sampleDecls 1 "daos" [("verbose", "1")] sampleParams).map
        (fun r => r.2) = .ok [] ∧
    (DaosEngine.ParseParams sampleDecls 0 "daos" [] sampleParams).map
        (fun r => r.2) = .ok [] := by
  refine ⟨?_, by decide, by decide, by decide⟩
  cases h : DaosEngine.ParseParams sampleDecls 0 "daos" [("verbose", "1")] sampleParams with
  | error e =>
    have hb : (DaosEngine.ParseParams sampleDecls 0 "daos" [("verbose", "1")]
        sampleParams).toBool = true := by decide
    rw [h] at hb
    cases hb
  | ok r =>
    exact ⟨r.1, r.2, rfl, (C20_diagnostics_on_rank_0_only sampleDecls 0 "daos"
      [("verbose", "1")] sampleParams r.1 r.2 h).1⟩

/-! ## Lemmas on one closure call -/

namespace DaosEngine

/-- A closure call reads the lower-cased map at the lower-cased field name
only. -/
theorem setParameter_congr (E : Decls) (m m' : StrMap) (d : ParamDecl)
    (h : m (helper.LowerCase d.Param) = m' (helper.LowerCase d.Param)) :
    setParameter E m d = setParameter E m' d := by
  cases d <;>
    simp only [ParamDecl.Param] at h <;>
    simp only [setParameter, lf_SetBoolParameter, lf_SetFloatParameter,
      lf_SetSizeBytesParameter, lf_SetIntParameter, lf_SetUIntParameter,
      lf_SetStringParameter, lf_SetBufferVTypeParameter, lf_SetAggregationTypeParameter,
      lf_SetAsyncWriteParameter, h]

/-- A closure call whose key is not in the lower-cased map assigns the
default. -/
theorem setParameter_absent (E : Decls) (m : StrMap) (d : ParamDecl)
    (h : m (helper.LowerCase d.Param) = none) : setParameter E m d = .ok d.Default := by
  cases d <;>
    simp only [ParamDecl.Param] at h <;>
    simp only [setParameter, lf_SetBoolParameter, lf_SetFloatParameter,
      lf_SetSizeBytesParameter, lf_SetIntParameter, lf_SetUIntParameter,
      lf_SetStringParameter, lf_SetBufferVTypeParameter, lf_SetAggregationTypeParameter,
      lf_SetAsyncWriteParameter, h, ParamDecl.Default] <;>
    rfl

/-- A key that no entry of the configuration carries, up to letter case, is
not in the lower-cased map. -/
theorem params_lowercase_absent (c : List (String × String)) (lk : String)
    (habsent : ∀ p ∈ c, helper.LowerCase p.1 ≠ lk) : params_lowercase c lk = none := by
  rw [params_lowercase_eq]
  have hf : c.reverse.find? (fun p => decide (helper.LowerCase p.1 = lk)) = none := by
    rw [List.find?_eq_none]
    intro p hp
    simpa using habsent p (List.mem_reverse.mp hp)
  rw [hf]
  rfl

end DaosEngine

theorem toLower_ne_of_isUpper (c : Char) (h : c.isUpper = true) : c.toLower ≠ c := by
  have hb : 65 ≤ c.toNat ∧ c.toNat ≤ 90 := by
    simp only [Char.isUpper, Bool.and_eq_true, decide_eq_true_eq] at h
    exact h
  have hc : c = Char.ofNat c.toNat := by simp
  obtain ⟨h1, h2⟩ := hb
  rw [hc]
  generalize c.toNat = n at h1 h2
  interval_cases n <;> decide

/-- A text with an upper-case letter is changed by lower-casing. -/
theorem LowerCase_ne_of_isUpper (v : String) (h : ∃ ch ∈ v.data, ch.isUpper = true) :
    helper.LowerCase v ≠ v := by
  obtain ⟨ch, hmem, hup⟩ := h
  intro heq
  have hdata : v.data.map Char.toLower = v.data := congrArg String.data heq
  have hall : ∀ x ∈ v.data, Char.toLower x = x := by
    intro x hx
    have := List.map_eq_map_iff.mp (hdata.trans (List.map_id _).symm) x hx
    simpa using this
  exact toLower_ne_of_isUpper ch hup (hall ch hmem)

/-! ## Absent keys, text parameters -/

/-- C21: a field whose key no entry of the configuration carries, up to
letter case, resolves to its declared default, whatever the record held
before the call, and its closure call throws nothing; and on the empty
configuration `ParseParams` returns, with every field of the table at its
default. -/
theorem C21_absent_key_resolves_to_default (E : Decls) (m_RankMPI : Int)
    (m_EngineType : String) (c : List (String × String)) (P : DAOSParams) (d : ParamDecl)
    (hdecl : d ∈ E.DAOS_FOREACH_PARAMETER_TYPE_4ARGS)
    (hfields : (E.DAOS_FOREACH_PARAMETER_TYPE_4ARGS.map ParamDecl.Param).Nodup)
    (habsent : ∀ p ∈ c, helper.LowerCase p.1 ≠ helper.LowerCase d.Param) :
    DaosEngine.ResolvesTo E m_RankMPI m_EngineType c P d d.Default ∧
    (∃ R out, DaosEngine.ParseParams E m_RankMPI m_EngineType [] P = .ok (R, out) ∧
      ∀ d' ∈ E.DAOS_FOREACH_PARAMETER_TYPE_4ARGS, R d'.Param = d'.Default) := by
  constructor
  · apply DaosEngine.resolvesTo_of_setParameter E _ _ c P _ _ hdecl hfields
    exact DaosEngine.setParameter_absent E _ d (DaosEngine.params_lowercase_absent c _ habsent)
  · have hdef : ∀ d' : ParamDecl,
        DaosEngine.setParameter E (DaosEngine.params_lowercase []) d' = .ok d'.Default :=
      fun d' => DaosEngine.setParameter_absent E _ d' rfl
    rcases DaosEngine.ParseParams_cases E m_RankMPI m_EngineType [] P with
      ⟨R, out, hok, _, _, hval⟩ | ⟨d', _, e, he, _⟩
    · refine ⟨R, out, hok, fun d' hd' => ?_⟩
      have h1 := hval hfields d' hd'
      rw [hdef d'] at h1
      exact (Except.ok.inj h1).symm
    · rw [hdef d'] at he
      cases he

/-- Witness of C21 on the sample table: with only `AsyncWrite` configured the
field `DirectIO` resolves to its default `false`, and the empty configuration
gives the defaults, from a record that held -1 everywhere. -/
theorem C21_absent_key_resolves_to_default_witness :
    (DaosEngine.ResolvesTo sampleDecls 1 "daos" [("AsyncWrite", "guided")] sampleParams
        (.BoolParameter "DirectIO" false) (.bool false) ∧
      ∃ R out, DaosEngine.ParseParams sampleDecls 1 "daos" [] sampleParams = .ok (R, out) ∧
        ∀ d' ∈ sampleDecls.DAOS_FOREACH_PARAMETER_TYPE_4ARGS, R d'.Param = d'.Default) ∧
    (DaosEngine.ParseParams sampleDecls 1 "daos" [] sampleParams).map
        (fun r => [r.1 "OpenTimeoutSecs", r.1 "DirectIO", r.1 "BurstBufferPath", r.1 "verbose",
          r.1 "NumAggregators", r.1 "AggregationType", r.1 "AsyncWrite",
          r.1 "InitialBufferSize", r.1 "BufferVType"])
      = .ok [.float ⟨0⟩, .bool false, .string "", .int 0, .uint 0, .int 2, .int 0,
          .size 16777216, .int 1] :=
  ⟨C21_absent_key_resolves_to_default sampleDecls 1 "daos" [("AsyncWrite", "guided")]
      sampleParams (.BoolParameter "DirectIO" false) (by decide) (by decide) (by decide),
    by decide⟩

/-- C22: a text field whose key is present with the value `v` resolves to
the lower-cased `v`; when `v` has an upper-case letter this is not the text
that was supplied. -/
theorem C22_string_parameter_is_lowercased (E : Decls) (m_RankMPI : Int)
    (m_EngineType : String) (c : List (String × String)) (P : DAOSParams) (Param : String)
    (Default : String) (k v : String)
    (hdecl : ParamDecl.StringParameter Param Default ∈ E.DAOS_FOREACH_PARAMETER_TYPE_4ARGS)
    (hfields : (E.DAOS_FOREACH_PARAMETER_TYPE_4ARGS.map ParamDecl.Param).Nodup)
    (hmem : (k, v) ∈ c) (hkey : helper.LowerCase k = helper.LowerCase Param)
    (honly : ∀ p ∈ c, helper.LowerCase p.1 = helper.LowerCase Param → p = (k, v)) :
    DaosEngine.ResolvesTo E m_RankMPI m_EngineType c P
      (.StringParameter Param Default) (.string (helper.LowerCase v)) ∧
    ((∃ ch ∈ v.data, ch.isUpper = true) →
      ParamValue.string (helper.LowerCase v) ≠ ParamValue.string v) := by
  have hfind := DaosEngine.params_lowercase_of_only c k v (helper.LowerCase Param) hmem hkey honly
  constructor
  · apply DaosEngine.resolvesTo_of_setParameter E _ _ c P _ _ hdecl hfields
    simp only [DaosEngine.setParameter, DaosEngine.lf_SetStringParameter, hfind]
    rfl
  · intro hup heq
    exact LowerCase_ne_of_isUpper v hup (ParamValue.string.inj heq)

/-- Witness of C22 on the sample table: the path `/Data/Run` given for
`BurstBufferPath` is stored as `/data/run`. -/
theorem C22_string_parameter_is_lowercased_witness :
    (DaosEngine.ResolvesTo sampleDecls 1 "daos" [("BurstBufferPath", "/Data/Run")]
        sampleParams (.StringParameter "BurstBufferPath" "")
        (.string (helper.LowerCase "/Data/Run")) ∧
      ((∃ ch ∈ "/Data/Run".data, ch.isUpper = true) →
        ParamValue.string (helper.LowerCase "/Data/Run") ≠ ParamValue.string "/Data/Run")) ∧
    (DaosEngine.ParseParams sampleDecls 1 "daos" [("BurstBufferPath", "/Data/Run")]
        sampleParams).map (fun r => r.1 "BurstBufferPath") = .ok (.string "/data/run") ∧
    (∃ ch ∈ "/Data/Run".data, ch.isUpper = true) :=
  ⟨C22_string_parameter_is_lowercased sampleDecls 1 "daos" [("BurstBufferPath", "/Data/Run")]
      sampleParams "BurstBufferPath" "" "BurstBufferPath" "/Data/Run" (by decide) (by decide)
      (by decide) (by decide) (by decide),
    by decide, ⟨'D', by decide, by decide⟩⟩

/-! ## Keys that collide after lower-casing -/

namespace DaosEngine

/-- In a configuration iterated in ascending key order, a key of the
lower-cased map holds the lower-cased value of the greatest key that
lower-cases to it. -/
theorem params_lowercase_of_greatest (c : List (String × String)) (k v lk : String)
    (hsorted : c.Pairwise (fun p q => p.1 < q.1))
    (hmem : (k, v) ∈ c) (hkey : helper.LowerCase k = lk)
    (hgreatest : ∀ p ∈ c, helper.LowerCase p.1 = lk → p.1 ≤ k) :
    params_lowercase c lk = some (helper.LowerCase v) := by
  induction c using List.reverseRecOn with
  | nil => cases hmem
  | append_singleton init p ih =>
    have hstep : params_lowercase (init ++ [p])
        = (params_lowercase init).assign (helper.LowerCase p.1) (helper.LowerCase p.2) := by
      simp [params_lowercase, List.foldl_append]
    rw [List.pairwise_append] at hsorted
    obtain ⟨hinit, _, hlt⟩ := hsorted
    rw [hstep]
    by_cases hp : helper.LowerCase p.1 = lk
    · have hpk : p = (k, v) := by
        rcases List.mem_append.mp hmem with h | h
        · have h1 : k < p.1 := hlt (k, v) h p (List.mem_singleton_self p)
          have h2 : p.1 ≤ k := hgreatest p (List.mem_append_right _ (List.mem_singleton_self p)) hp
          exact absurd h1 (not_lt_of_le h2)
        · exact (List.mem_singleton.mp h).symm
      rw [hpk]
      simp [StrMap.assign, hkey]
    · have hin : (k, v) ∈ init := by
        rcases List.mem_append.mp hmem with h | h
        · exact h
        · rw [List.mem_singleton] at h
          rw [← h] at hp
          exact absurd hkey hp
      have hne : ¬ lk = helper.LowerCase p.1 := fun h => hp h.symm
      simp only [StrMap.assign, hne, if_false]
      exact ih hinit hin (fun q hq => hgreatest q (List.mem_append_left _ hq))

end DaosEngine

/-- C23: in a configuration iterated in ascending key order, when several
keys are equal to the key of a field up to letter case and `k`, with the
value `v`, is the greatest of them, the lower-cased map holds the lower-cased
`v` for that key, and the field resolves as it does when `(k, v)` is the only
entry of the configuration. -/
theorem C23_greatest_colliding_key_wins (E : Decls) (m_RankMPI : Int)
    (m_EngineType : String) (c : List (String × String)) (P : DAOSParams) (d : ParamDecl)
    (k v : String)
    (hdecl : d ∈ E.DAOS_FOREACH_PARAMETER_TYPE_4ARGS)
    (hfields : (E.DAOS_FOREACH_PARAMETER_TYPE_4ARGS.map ParamDecl.Param).Nodup)
    (hsorted : c.Pairwise (fun p q => p.1 < q.1))
    (hmem : (k, v) ∈ c) (hkey : helper.LowerCase k = helper.LowerCase d.Param)
    (hgreatest : ∀ p ∈ c, helper.LowerCase p.1 = helper.LowerCase d.Param → p.1 ≤ k) :
    DaosEngine.params_lowercase c (helper.LowerCase d.Param) = some (helper.LowerCase v) ∧
    DaosEngine.setParameter E (DaosEngine.params_lowercase c) d
      = DaosEngine.setParameter E (DaosEngine.params_lowercase [(k, v)]) d ∧
    (∀ x, DaosEngine.setParameter E (DaosEngine.params_lowercase [(k, v)]) d = .ok x →
      DaosEngine.ResolvesTo E m_RankMPI m_EngineType c P d x) := by
  have hfind := DaosEngine.params_lowercase_of_greatest c k v (helper.LowerCase d.Param)
    hsorted hmem hkey hgreatest
  have hone : DaosEngine.params_lowercase [(k, v)] (helper.LowerCase d.Param)
      = some (helper.LowerCase v) :=
    DaosEngine.params_lowercase_of_only [(k, v)] k v _ (List.mem_singleton_self _) hkey
      (fun p hp _ => List.mem_singleton.mp hp)
  have hset := DaosEngine.setParameter_congr E (DaosEngine.params_lowercase c)
    (DaosEngine.params_lowercase [(k, v)]) d (by rw [hfind, hone])
  refine ⟨hfind, hset, fun x hx => ?_⟩
  apply DaosEngine.resolvesTo_of_setParameter E _ _ c P _ _ hdecl hfields
  rw [hset, hx]

/-- Witness of C23 on the sample table: of `AsyncWrite = naive` and
`asyncwrite = sync` the second key is the greater, and the field resolves to
Sync (0 in the sample numbering). -/
theorem C23_greatest_colliding_key_wins_witness :
    (DaosEngine.params_lowercase [("AsyncWrite", "naive"), ("asyncwrite", "sync")]
        (helper.LowerCase "AsyncWrite") = some (helper.LowerCase "sync") ∧
      DaosEngine.setParameter sampleDecls
          (DaosEngine.params_lowercase [("AsyncWrite", "naive"), ("asyncwrite", "sync")])
          (.AsyncWriteParameter "AsyncWrite" 0)
        = DaosEngine.setParameter sampleDecls
          (DaosEngine.params_lowercase [("asyncwrite", "sync")])
          (.AsyncWriteParameter "AsyncWrite" 0) ∧
      (∀ x, DaosEngine.setParameter sampleDecls
          (DaosEngine.params_lowercase [("asyncwrite", "sync")])
          (.AsyncWriteParameter "AsyncWrite" 0) = .ok x →
        DaosEngine.ResolvesTo sampleDecls 1 "daos"
          [("AsyncWrite", "naive"), ("asyncwrite", "sync")] sampleParams
          (.AsyncWriteParameter "AsyncWrite" 0) x)) ∧
    (DaosEngine.ParseParams sampleDecls 1 "daos"
        [("AsyncWrite", "naive"), ("asyncwrite", "sync")] sampleParams).map
      (fun r => r.1 "AsyncWrite") = .ok (.int 0) :=
  ⟨C23_greatest_colliding_key_wins sampleDecls 1 "daos"
      [("AsyncWrite", "naive"), ("asyncwrite", "sync")] sampleParams
      (.AsyncWriteParameter "AsyncWrite" 0) "asyncwrite" "sync" (by decide) (by decide)
      (List.pairwise_pair.mpr (String.lt_iff_toList_lt.mpr (by decide))) (by decide)
      (by decide)
      (by
        intro p hp _
        simp only [List.mem_cons, List.mem_singleton, List.not_mem_nil, or_false] at hp
        rcases hp with rfl | rfl
        · exact String.le_iff_toList_le.mpr (by decide)
        · exact le_refl _),
    by decide⟩

/-! ## Distinct artifact paths -/

theorem append_left_cancel (a x y : String) (h : a ++ x = a ++ y) : x = y := by
  have hd := congrArg String.data h
  rw [String.data_append, String.data_append] at hd
  exact String.ext (List.append_cancel_left hd)

/-- Different numbers have different decimal texts. -/
theorem repr_injective (n m : Nat) (h : Nat.repr n = Nat.repr m) : n = m := by
  have hn := (repr_spec n).2.2
  have hm := (repr_spec m).2.2
  rw [h] at hn
  rw [← hn, hm]

/-- A text that starts with `data.` is none of the four fixed suffixes. -/
theorem data_suffix_ne (y : String) :
    "md.0" ≠ "data." ++ y ∧ "mmd.0" ≠ "data." ++ y ∧ "md.idx" ≠ "data." ++ y ∧
      ".bpversion" ≠ "data." ++ y := by
  have hd : ("data." ++ y).data.head? = some 'd' := by
    rw [String.data_append]
    rfl
  refine ⟨fun h => ?_, fun h => ?_, fun h => ?_, fun h => ?_⟩ <;>
    · rw [← h] at hd
      revert hd
      decide

namespace DaosEngine

/-- The five artifact paths, each as the stripped root with the separator,
followed by its suffix. -/
theorem artifact_paths (r : String) (n : Nat) (isReader : Bool) :
    GetBPMetadataFileName r
        = (helper.RemoveTrailingSlash r ++ String.singleton PathSeparator) ++ "md.0" ∧
    GetBPMetaMetadataFileName r
        = (helper.RemoveTrailingSlash r ++ String.singleton PathSeparator) ++ "mmd.0" ∧
    GetBPMetadataIndexFileName r
        = (helper.RemoveTrailingSlash r ++ String.singleton PathSeparator) ++ "md.idx" ∧
    GetBPVersionFileName r
        = (helper.RemoveTrailingSlash r ++ String.singleton PathSeparator) ++ ".bpversion" ∧
    GetBPSubStreamName r n true isReader
        = (helper.RemoveTrailingSlash r ++ String.singleton PathSeparator)
            ++ ("data." ++ Nat.repr n) := by
  have h0 : to_string 0 = "0" := by decide
  refine ⟨?_, ?_, rfl, rfl, ?_⟩
  · show _ ++ "md." ++ to_string 0 = _
    rw [h0, String.append_assoc _ "md." "0"]
    rfl
  · show _ ++ "mmd." ++ to_string 0 = _
    rw [h0, String.append_assoc _ "mmd." "0"]
    rfl
  · show _ ++ "data." ++ Nat.repr n = _
    rw [String.append_assoc _ "data." (Nat.repr n)]

end DaosEngine

/-- C24: for every root and substream id the metadata, meta-metadata, index,
version and substream data paths are five different paths, and two substream
data paths of one root are equal only for equal substream ids. -/
theorem C24_artifact_paths_never_collide (r : String) (n m : Nat)
    (isReader isReader' : Bool) :
    [DaosEngine.GetBPMetadataFileName r, DaosEngine.GetBPMetaMetadataFileName r,
      DaosEngine.GetBPMetadataIndexFileName r, DaosEngine.GetBPVersionFileName r,
      DaosEngine.GetBPSubStreamName r n true isReader].Nodup ∧
    (DaosEngine.GetBPSubStreamName r n true isReader
        = DaosEngine.GetBPSubStreamName r m true isReader' ↔ n = m) := by
  obtain ⟨h1, h2, h3, h4, h5⟩ := DaosEngine.artifact_paths r n isReader
  have h5' := (DaosEngine.artifact_paths r m isReader').2.2.2.2
  obtain ⟨d1, d2, d3, d4⟩ := data_suffix_ne (Nat.repr n)
  rw [h1, h2, h3, h4, h5, h5']
  constructor
  · simp only [List.nodup_cons, List.mem_cons, List.mem_singleton, List.not_mem_nil,
      List.nodup_nil, or_false, not_or, and_true, not_false_eq_true]
    refine ⟨⟨?_, ?_, ?_, ?_⟩, ⟨?_, ?_, ?_⟩, ⟨?_, ?_⟩, ?_⟩
    · exact fun h => absurd (append_left_cancel _ _ _ h) (by decide)
    · exact fun h => absurd (append_left_cancel _ _ _ h) (by decide)
    · exact fun h => absurd (append_left_cancel _ _ _ h) (by decide)
    · exact fun h => d1 (append_left_cancel _ _ _ h)
    · exact fun h => absurd (append_left_cancel _ _ _ h) (by decide)
    · exact fun h => absurd (append_left_cancel _ _ _ h) (by decide)
    · exact fun h => d2 (append_left_cancel _ _ _ h)
    · exact fun h => absurd (append_left_cancel _ _ _ h) (by decide)
    · exact fun h => d3 (append_left_cancel _ _ _ h)
    · exact fun h => d4 (append_left_cancel _ _ _ h)
  · constructor
    · intro h
      exact repr_injective n m
        (append_left_cancel _ _ _ (append_left_cancel _ _ _ h))
    · intro h
      rw [h]
